import Mathlib

/-!
Verification development for the DeepResearchAgent repository.

This file gives a shallow embedding, in Lean 4, of the parts of the code
that the specification's claims are about:

* `src/agents/deep_agents/middleware/summarization.py`
  (`compute_summary_budget`, `AdaptiveSummarizationMiddleware._enforce_budget`,
  `_rebalance_until_within_budget`, `_drop_orphan_tool_pairs`, ...)
* `src/agents/deep_agents/middleware/timer.py` (`ResearchTimerMiddleware`)
* `src/graph/nodes.py` (`planner_node`, `human_feedback_node`,
  `coordinator_node`, `_execute_agent_step`)
* `src/agents/deep_agents_1/tools.py` (`edit_file`)
* `src/graph/checkpoint.py` (`ChatStreamManager.process_stream_message`,
  `chat_stream_message`)

Python conventions used throughout the embedding:

* Machine integers are modelled by `Nat`/`Int` (Python ints are unbounded,
  so no wrap-around modelling is needed).
* A nullable string field is an `Option String`; Python truthiness of a
  string is "non-empty".
* Dictionaries are association lists.
* Calls into external services (the chat model, `count_tokens_approximately`
  from langchain-core, the summary-producing model call) are parameters of
  the embedding: an arbitrary additive per-message token-cost function and
  an arbitrary summary-text function.  `count_tokens_approximately` is
  additive over messages (it sums a per-message count), which is the only
  property the proofs rely on.
-/

namespace DeepResearchAgent

/-! ## Conversation messages

`langchain_core` message taxonomy, restricted to what the repository's code
inspects: `HumanMessage`, `AIMessage` (with its `tool_calls` list of ids),
`ToolMessage` (with its `tool_call_id`) and any other message kind
(`SystemMessage` etc.).  `RemoveMessage` sentinels are separated out in
`AdaptiveSummarizationMiddleware.before_model` before `_enforce_budget`
runs, so the message type here models content messages only. -/
inductive Msg where
  | human (content : String) (name : Option String)
  | ai (content : String) (toolCallIds : List String)
  | tool (content : String) (toolCallId : String)
  | system (content : String)
  deriving DecidableEq, Repr

def defaultMsg : Msg := Msg.human "" none

def Msg.isHuman : Msg → Bool
  | .human _ _ => true
  | _ => false

/-- Source: `getattr(message, "content", "")` — all our message kinds carry content. -/
def Msg.content : Msg → String
  | .human c _ => c
  | .ai c _ => c
  | .tool c _ => c
  | .system c => c

/-- Source: `isinstance(message, AIMessage) and getattr(message, "tool_calls", None)`:
an AI message whose `tool_calls` list is non-empty (truthy). -/
def Msg.hasToolCalls : Msg → Bool
  | .ai _ ids => !ids.isEmpty
  | _ => false

/-- Source: `SummarizationMiddleware._extract_tool_call_ids` (upstream langchain base
class): the set of `id` fields of the message's tool calls.  Python's `set`
is modelled by a deduplicated list; only membership, removal and emptiness
are ever used, so the list order is irrelevant to the embedded code. -/
def extractToolCallIds : Msg → List String
  | .ai _ ids => ids.dedup
  | _ => []

/-! ## `compute_summary_budget`
(`src/agents/deep_agents/middleware/summarization.py`, lines 149-164).

`int(token_limit * 0.1)` is modelled by floor division `token_limit / 10`:
for a positive int `token_limit` (far below 2^53, where doubles are exact
enough that the product cannot cross an integer boundary) the float
computation truncates to exactly `token_limit // 10`.  Python `//` is floor
division, i.e. `Int.ediv`. -/
def computeSummaryBudget (tokenLimit : ℤ) (requested : Option ℤ) : ℤ :=
  if tokenLimit ≤ 0 then 4000
  else
    let safetyMargin := max (Int.ediv tokenLimit 10) 6000
    let maxThreshold0 := tokenLimit - safetyMargin
    let maxThreshold :=
      if maxThreshold0 ≤ 0 then max (Int.ediv tokenLimit 2) 2000
      else max (max maxThreshold0 (Int.ediv tokenLimit 2)) 2000
    match requested with
    | some r => max (min r maxThreshold) 2000
    | none => maxThreshold

/-- Source: `determine_messages_to_keep` (same file, lines 167-175). -/
def determineMessagesToKeep (tokenLimit : ℤ) : ℕ :=
  if tokenLimit ≤ 60000 then 2
  else if tokenLimit ≤ 150000 then 3
  else if tokenLimit ≤ 220000 then 4
  else 6

/-! ## Plan / Step data model (`src/prompts/planner_model.py` shape, as used
by `src/graph/nodes.py`).

A `Step.execution_res` is a nullable string; Python's `not step.execution_res`
is true for both `None` and the empty string. -/
structure Step where
  title : String
  description : String
  stepType : String
  needSearch : Bool
  executionRes : Option String
  deriving DecidableEq, Repr

structure Plan where
  title : String
  thought : String
  locale : String
  hasEnoughContext : Bool
  steps : List Step
  deriving DecidableEq, Repr

/-- Python truthiness of the nullable `execution_res` field:
`not step.execution_res` holds for `None` and for `""`. -/
def Step.unexecuted (s : Step) : Bool :=
  match s.executionRes with
  | none => true
  | some r => r.isEmpty

/-- Graph-node targets used by `Command(goto=...)` in `src/graph/nodes.py`. -/
inductive Node where
  | coordinator
  | backgroundInvestigator
  | planner
  | humanFeedback
  | researchTeam
  | researcher
  | coder
  | reporter
  | endNode
  deriving DecidableEq, Repr

/-! ## `planner_node` (`src/graph/nodes.py`, lines 118-220)

The LLM structured-extraction call `build_plan_with_trustcall` is external:
its outcome is a parameter — `some plan` for a validated `Plan`, `none` for
any exception during generation.  `current_plan` in workflow state can be a
`Plan`, a dict (deserialized state), a raw string, or absent. -/
inductive PlanState where
  | planObj (p : Plan)
  | dictObj (steps : List Step)
  | rawStr (s : String)
  | absent
  deriving DecidableEq, Repr

structure PlannerOutcome where
  goto : Node
  /-- Source: `Command.update`, when present: the stored validated `Plan` object and
  the new `plan_iterations` value.  `none` models a `Command` with no update. -/
  update : Option (Plan × ℕ)
  deriving DecidableEq, Repr

def plannerNode (planIterations maxPlanIterations : ℕ) (currentPlan : PlanState)
    (genResult : Option Plan) (autoAccepted : Bool) : PlannerOutcome :=
  -- 1. Iteration check
  if planIterations ≥ maxPlanIterations then
    let hasPendingPlan :=
      match currentPlan with
      | .planObj p => !p.steps.isEmpty
      | .dictObj steps => !steps.isEmpty
      | _ => false
    { goto := if hasPendingPlan then .researchTeam else .reporter, update := none }
  else
    -- 4. Core logic: the `build_plan_with_trustcall` call inside try/except
    match genResult with
    | none =>
      -- exception branch: reporter if not the first attempt, else end
      { goto := if planIterations > 0 then .reporter else .endNode, update := none }
    | some newPlan =>
      let planHasSteps := !newPlan.steps.isEmpty
      let newPlan' :=
        if planHasSteps && newPlan.hasEnoughContext then
          { newPlan with hasEnoughContext := false }
        else newPlan
      -- 5. Context-aware routing
      let goto :=
        if planHasSteps then
          if autoAccepted then Node.researchTeam else Node.humanFeedback
        else if newPlan'.hasEnoughContext then Node.reporter
        else Node.humanFeedback
      -- 6. Commit the new plan and increment the iteration counter
      { goto := goto, update := some (newPlan', planIterations + 1) }

/-! ## `human_feedback_node` (`src/graph/nodes.py`, lines 299-354)

The interrupt's resume value is `str`-converted by the code before the
prefix checks, so it is modelled as a `String`; Python string truthiness is
non-emptiness.  `str.upper()` is modelled on ASCII letters (the compared
prefixes are pure ASCII). -/
def asciiUpperChar (c : Char) : Char :=
  if 'a' ≤ c ∧ c ≤ 'z' then Char.ofNat (c.toNat - 32) else c

def pyUpper (s : String) : String :=
  String.mk (s.data.map asciiUpperChar)

/-- Python `s.startswith(pre)`, character-wise. -/
def pyStartsWith (s pre : String) : Bool := pre.data.isPrefixOf s.data

inductive HFOutcome where
  | typeError
  /-- A `Command`: target node, the messages appended by the update (the
  `[EDIT_PLAN]` branch records the feedback as a feedback-named human
  message), and — for the accepted-plan path — the stored (re-validated)
  plan, the stored `plan_iterations`, and the stored locale. -/
  | cmd (goto : Node) (messages : List Msg) (update : Option (Plan × ℕ × String))
  deriving DecidableEq, Repr

def humanFeedbackNode (autoAccepted : Bool) (feedback : String)
    (currentPlan : PlanState) (planIterations : ℕ) : HFOutcome :=
  let proceed : Unit → HFOutcome := fun _ =>
    match currentPlan with
    | .planObj p =>
      -- `Plan.model_validate(current_plan.model_dump())` re-validates the
      -- same data: the stored plan is `p` itself.
      .cmd .researchTeam [] (some (p, planIterations, p.locale))
    | _ =>
      -- `TypeError` raised and caught: "not a valid Plan object"
      if planIterations > 1 then .cmd .reporter [] none
      else .cmd .endNode [] none
  if !autoAccepted then
    if feedback ≠ "" ∧ pyStartsWith (pyUpper feedback) "[EDIT_PLAN]" then
      -- `HumanMessage(content=feedback, name="feedback")` recorded in the
      -- Command's messages update
      .cmd .planner [Msg.human feedback (some "feedback")] none
    else if feedback ≠ "" ∧ pyStartsWith (pyUpper feedback) "[ACCEPTED]" then
      proceed ()
    else
      .typeError
  else
    proceed ()

/-! ## `coordinator_node` (`src/graph/nodes.py`, lines 407-458)

The model response is external: its tool-call list and text content are
parameters.  A tool call's `args` dict returns `""`-defaulted values for
`locale`/`research_topic` (`dict.get(...)` with a missing key is falsy, just
like an empty string, so both are modelled by `""`). -/
structure ToolCall where
  name : String
  argLocale : String
  argTopic : String
  deriving DecidableEq, Repr

structure CoordinatorOutcome where
  goto : Node
  locale : String
  researchTopic : String
  deriving DecidableEq, Repr

/-- The loop body's acceptance test: the call is named `handoff_to_planner`
and both `locale` and `research_topic` arguments are truthy. -/
def isCompleteHandoff (tc : ToolCall) : Bool :=
  tc.name == "handoff_to_planner" && tc.argLocale != "" && tc.argTopic != ""

def coordinatorNode (toolCalls : List ToolCall) (bgInvestigation : Bool)
    (stateLocale : Option String) (stateTopic : Option String) : CoordinatorOutcome :=
  let locale0 := stateLocale.getD "en-US"
  let topic0 := stateTopic.getD ""
  if !toolCalls.isEmpty then
    let goto := if bgInvestigation then Node.backgroundInvestigator else Node.planner
    -- the for-loop takes the first handoff_to_planner call with both args
    -- truthy (calls with other names, or with a missing/empty argument, are
    -- skipped with `continue`)
    match toolCalls.find? isCompleteHandoff with
    | some tc => { goto := goto, locale := tc.argLocale, researchTopic := tc.argTopic }
    | none => { goto := goto, locale := locale0, researchTopic := topic0 }
  else
    { goto := .endNode, locale := locale0, researchTopic := topic0 }

/-! ## `_execute_agent_step` (`src/graph/nodes.py`, lines 771-915)

The agent invocation is external; its final message content is the
`agentResponse` parameter.  `RESEARCH_STEP_MAX_ATTEMPTS` is read from the
environment and parsed with Python `int(...)`. -/

/-- Python `int(s)` on a decimal string: optional surrounding whitespace,
optional sign, at least one digit.  (Underscore separators are omitted.) -/
def pyParseInt (s : String) : Option ℤ :=
  let t := (s.data.dropWhile Char.isWhitespace).reverse
  let t := (t.dropWhile Char.isWhitespace).reverse
  let (sign, digits) :=
    match t with
    | '-' :: rest => ((-1 : ℤ), rest)
    | '+' :: rest => ((1 : ℤ), rest)
    | rest => ((1 : ℤ), rest)
  if digits.isEmpty ∨ ¬ digits.all Char.isDigit then none
  else some (sign * (digits.foldl (fun acc c => acc * 10 + (c.toNat - '0'.toNat)) (0 : ℕ) : ℤ))

/-- Source: `int(os.getenv("RESEARCH_STEP_MAX_ATTEMPTS", "3"))`, coerced to 3 when
non-positive, with any parse exception also yielding 3. -/
def maxAttemptsFromEnv (env : Option String) : ℤ :=
  match pyParseInt (env.getD "3") with
  | none => 3
  | some n => if n ≤ 0 then 3 else n

/-- Source: `step_attempts` mapping from step title to attempt count. -/
def AttemptMap := List (String × ℕ)

def AttemptMap.get (m : AttemptMap) (k : String) : ℕ :=
  match List.lookup k m with
  | some v => v
  | none => 0

def AttemptMap.set (m : AttemptMap) (k : String) (v : ℕ) : AttemptMap :=
  match m with
  | [] => [(k, v)]
  | (k', v') :: rest => if k' = k then (k, v) :: rest else (k', v') :: AttemptMap.set rest k v

def AttemptMap.erase (m : AttemptMap) (k : String) : AttemptMap :=
  match m with
  | [] => []
  | (k', v') :: rest => if k' = k then rest else (k', v') :: AttemptMap.erase rest k

structure StepOutcome where
  goto : Node
  plan : Plan
  attempts : AttemptMap

/-- First step whose `execution_res` is empty, in declaration order. -/
def firstUnexecutedIdx (steps : List Step) : Option ℕ :=
  steps.findIdx? Step.unexecuted

def emptyStep : Step :=
  { title := "", description := "", stepType := "", needSearch := false, executionRes := none }

def executeAgentStep (plan : Plan) (stepAttempts : AttemptMap)
    (env : Option String) (agentResponse : String) : StepOutcome :=
  match firstUnexecutedIdx plan.steps with
  | none =>
    -- "No unexecuted step found"
    { goto := .researchTeam, plan := plan, attempts := stepAttempts }
  | some i =>
    let currentStep := plan.steps.getD i emptyStep
    let titleKey := currentStep.title
    let maxAttempts := maxAttemptsFromEnv env
    let attempts := stepAttempts.get titleKey
    if (attempts : ℤ) ≥ maxAttempts then
      -- max attempts reached: route to planner, plan untouched
      { goto := .planner, plan := plan, attempts := stepAttempts }
    else
      -- increment attempt before invoking, fill the step's result, and
      -- clear the attempt counter once the step completes
      let attempts1 := stepAttempts.set titleKey (attempts + 1)
      let plan' := { plan with
        steps := plan.steps.set i { currentStep with executionRes := some agentResponse } }
      let attempts2 := attempts1.erase titleKey
      { goto := .researchTeam, plan := plan', attempts := attempts2 }

/-! ## `edit_file` (`src/agents/deep_agents_1/tools.py`, lines 207-274)

Python string containment, occurrence counting (`str.count`: non-overlapping,
left to right) and replacement (`str.replace`, with and without a count of 1)
are modelled on `List Char`.  Python counts the empty pattern
`len(s) + 1` times and `"".join`-style replacement of the empty pattern
inserts the replacement before every character and at the end. -/

/-- Source: `s.count(p)` for a non-empty pattern: non-overlapping occurrences,
scanning left to right.  The scan consumes at least one character per step,
so a fuel of `s.length` makes the structural recursion exact (fuel `0` is
reached only on the empty remainder). -/
def countOccsAux (p : List Char) : ℕ → List Char → ℕ
  | 0, _ => 0
  | _ + 1, [] => 0
  | fuel + 1, c :: rest =>
    if p.isPrefixOf (c :: rest) then 1 + countOccsAux p fuel ((c :: rest).drop p.length)
    else countOccsAux p fuel rest

/-- Python `content.count(old)`: the empty pattern is counted
`len(content) + 1` times. -/
def countOccs (p s : List Char) : ℕ :=
  if p.length = 0 then s.length + 1 else countOccsAux p s.length s

/-- Python `old in content` (`p in s` holds iff `s.count(p) > 0`, with the
empty pattern always contained). -/
def containsSub (p s : List Char) : Bool :=
  decide (0 < countOccs p s)

/-- Python `content.replace(old, new)` (all non-overlapping occurrences,
left to right), with the same exact fuel encoding. -/
def pyReplaceAllAux (p r : List Char) : ℕ → List Char → List Char
  | 0, _ => []
  | _ + 1, [] => []
  | fuel + 1, c :: rest =>
    if p.isPrefixOf (c :: rest) then r ++ pyReplaceAllAux p r fuel ((c :: rest).drop p.length)
    else c :: pyReplaceAllAux p r fuel rest

def pyReplaceAll (p r s : List Char) : List Char :=
  if p.length = 0 then
    -- "abc".replace("", "-") = "-a-b-c-"
    r ++ s.flatMap (fun c => c :: r)
  else pyReplaceAllAux p r s.length s

/-- Python `content.replace(old, new, 1)` (first occurrence only). -/
def pyReplaceFirstAux (p r : List Char) : ℕ → List Char → List Char
  | 0, _ => []
  | _ + 1, [] => []
  | fuel + 1, c :: rest =>
    if p.isPrefixOf (c :: rest) then r ++ (c :: rest).drop p.length
    else c :: pyReplaceFirstAux p r fuel rest

def pyReplaceFirst (p r s : List Char) : List Char :=
  if p.length = 0 then r ++ s
  else pyReplaceFirstAux p r s.length s

/-- The state `files` mapping (path key → text content).  The embedding
works with the mock filesystem after any disk-cache load, so the target key
is looked up directly. -/
abbrev FileMap := List (String × String)

def FileMap.lookup (m : FileMap) (k : String) : Option String :=
  List.lookup k m

def FileMap.insert (m : FileMap) (k : String) (v : String) : FileMap :=
  match m with
  | [] => [(k, v)]
  | (k', v') :: rest =>
    if k' = k then (k, v) :: rest else (k', v') :: FileMap.insert rest k v

/-- Result of `edit_file`: either a plain error string (modelled structurally,
carrying exactly the data interpolated into the message) or a `Command`
updating the `files` mapping with the tool message, which reports the number
of replacements made only in the `replace_all` branch. -/
inductive EditResult where
  /-- path resolution / disk-load failure surface ("File ... not found"). -/
  | errNoFile (key : String)
  /-- Source message: "Error: String not found in file: old_string". -/
  | errStringNotFound (old : String)
  /-- Source message: "Error: String old_string appears N times in file. Use
  replace_all=True to replace all instances, or provide a more specific
  string with surrounding context." -/
  | errAmbiguous (old : String) (occurrences : ℕ)
  /-- Source: `Command(update={"files": ..., "messages": [ToolMessage(...)]})`;
  `reportedCount` is the replacement count named in the success message for
  the `replace_all` branch (`none` for the single-replacement message). -/
  | ok (files : FileMap) (reportedCount : Option ℕ)
  deriving DecidableEq, Repr

def editFile (files : FileMap) (key old new_ : String) (replaceAll : Bool) :
    EditResult :=
  match files.lookup key with
  | none => .errNoFile key
  | some content =>
    -- `if old_string not in content`
    if ¬ containsSub old.data content.data then .errStringNotFound old
    else
      -- `if not replace_all:` uniqueness check
      let occurrences := countOccs old.data content.data
      if ¬ replaceAll ∧ 1 < occurrences then .errAmbiguous old occurrences
      else if ¬ replaceAll ∧ occurrences = 0 then .errStringNotFound old
      else if replaceAll then
        let newContent := String.mk (pyReplaceAll old.data new_.data content.data)
        .ok (files.insert key newContent) (some occurrences)
      else
        let newContent := String.mk (pyReplaceFirst old.data new_.data content.data)
        .ok (files.insert key newContent) none

/-! ## `ResearchTimerMiddleware` (`src/agents/deep_agents/middleware/timer.py`)

Wall-clock seconds (Python floats) are modelled by `ℚ`; `time.monotonic()`
readings are inputs of each invocation.  The `str.format` call on the
warning template is modelled by function application (the default template
inserts the humanized remaining-time string into fixed surrounding text);
`raise ValueError` at construction is modelled by an `Option` result. -/

/-- Python whitespace for `str.strip()`. -/
def isPyWhitespace (c : Char) : Bool :=
  c = ' ' ∨ c = '\t' ∨ c = '\n' ∨ c = '\r' ∨ c = '\x0b' ∨ c = '\x0c'

/-- Python `s.strip()`. -/
def pyStrip (s : String) : String :=
  String.mk (((s.data.dropWhile isPyWhitespace).reverse.dropWhile isPyWhitespace).reverse)

/-- Python 3 `round()` on a number: round half to even. -/
def pyRound (q : ℚ) : ℤ :=
  if Int.fract q < 1/2 then ⌊q⌋
  else if 1/2 < Int.fract q then ⌊q⌋ + 1
  else if ⌊q⌋ % 2 = 0 then ⌊q⌋ else ⌊q⌋ + 1

/-- Source: `ResearchTimerMiddleware._format_remaining`. -/
def formatRemaining (seconds : ℚ) : String :=
  let bounded := max seconds 0
  if bounded ≥ 90 then
    let minutes := pyRound (bounded / 60)
    toString minutes ++ " minute" ++ (if minutes ≠ 1 then "s" else "")
  else if bounded ≥ 60 then
    let wholeMinutes := ⌊bounded / 60⌋
    let remainder := ⌊bounded - 60 * (wholeMinutes : ℚ)⌋
    if remainder = 0 then
      toString wholeMinutes ++ " minute" ++ (if wholeMinutes ≠ 1 then "s" else "")
    else
      toString wholeMinutes ++ " minute" ++ (if wholeMinutes ≠ 1 then "s" else "")
        ++ " and " ++ toString remainder ++ " second" ++ (if remainder ≠ 1 then "s" else "")
  else
    let secondsInt := max (pyRound bounded) 1
    toString secondsInt ++ " second" ++ (if secondsInt ≠ 1 then "s" else "")

def defaultRoundUpMessage (remaining : String) : String :=
  "Time check: about " ++ remaining ++
    " remaining. Transition into summarizing key findings and prepare the final response."

def defaultFinalMessage : String :=
  "The research timer has elapsed. Deliver a concise final summary that is detailed and extensive, highlighting the most important insights and next steps."

structure TimerCfg where
  totalSeconds : ℚ
  warningFrac : ℚ
  warningOffsetSeconds : ℚ
  roundUpMessage : String → String
  finalMessage : String
  warningDeadline : ℚ

structure TimerState where
  startTime : Option ℚ
  warningSent : Bool
  finalSent : Bool
  deriving DecidableEq, Repr

def initialTimerState : TimerState :=
  { startTime := none, warningSent := false, finalSent := false }

/-- Source: `ResearchTimerMiddleware.__init__`: fails (ValueError) when
`total_seconds ≤ 0`; clamps the offset to `≥ 0`; precomputes the warning
deadline as the clamped minimum of the ratio threshold and the
minute-remaining threshold (the offset subtraction applies only when
`total_seconds` exceeds the clamped offset). -/
def mkResearchTimer (totalSeconds warningFrac warningOffsetSeconds : ℚ)
    (roundUpMessage : Option (String → String)) (finalMessage : Option String) :
    Option TimerCfg :=
  if totalSeconds ≤ 0 then none
  else
    let offset := max warningOffsetSeconds 0
    let ratioThreshold := totalSeconds * max warningFrac 0
    let minuteThreshold :=
      if totalSeconds > offset then totalSeconds - offset else totalSeconds
    some { totalSeconds := totalSeconds
           warningFrac := warningFrac
           warningOffsetSeconds := offset
           roundUpMessage := roundUpMessage.getD defaultRoundUpMessage
           finalMessage := finalMessage.getD defaultFinalMessage
           warningDeadline := max (min ratioThreshold minuteThreshold) 0 }

/-- Source: `ResearchTimerMiddleware._append_message`: appends a timer-named human
message, unless the last message is already a human message with identical
trimmed content (de-duplication returns `None`, i.e. no update). -/
def appendTimerMessage (messages : List Msg) (content : String) : Option (List Msg) :=
  match messages.getLast? with
  | some (Msg.human c _) =>
    if pyStrip c = pyStrip content then none
    else some (messages ++ [Msg.human content (some "timer")])
  | _ => some (messages ++ [Msg.human content (some "timer")])

/-- Source: `ResearchTimerMiddleware.before_model`: the state transition of one
invocation at monotonic time `now` over the caller-supplied `messages`. -/
def timerBeforeModel (cfg : TimerCfg) (st : TimerState) (now : ℚ)
    (messages : List Msg) : TimerState × Option (List Msg) :=
  match st.startTime with
  | none => ({ st with startTime := some now }, none)
  | some t0 =>
    let elapsed := now - t0
    if ¬ st.finalSent ∧ elapsed ≥ cfg.totalSeconds then
      ({ st with finalSent := true, warningSent := true },
        appendTimerMessage messages cfg.finalMessage)
    else if ¬ st.warningSent ∧ elapsed ≥ cfg.warningDeadline then
      let remaining := max (cfg.totalSeconds - elapsed) 0
      ({ st with warningSent := true },
        appendTimerMessage messages (cfg.roundUpMessage (formatRemaining remaining)))
    else (st, none)

structure TimerInvocation where
  now : ℚ
  messages : List Msg

/-- A sequence of `before_model` invocations, recording for each the
pre-state, post-state, and returned update. -/
def timerRun (cfg : TimerCfg) :
    TimerState → List TimerInvocation → List (TimerState × TimerState × Option (List Msg))
  | _, [] => []
  | st, inv :: rest =>
    let r := timerBeforeModel cfg st inv.now inv.messages
    (st, r.1, r.2) :: timerRun cfg r.1 rest

/-- An invocation appended the final message: it returned an update and it
flipped the `_final_sent` flag.  (The flag is flipped exactly by the
final-message branch; the update is `none` exactly when de-duplication
suppressed the append.) -/
def isFinalAppend (e : TimerState × TimerState × Option (List Msg)) : Bool :=
  e.2.2.isSome && e.2.1.finalSent && !e.1.finalSent

/-- An invocation appended the warning message: it returned an update from
the warning branch (which flips `_warning_sent` but not `_final_sent`). -/
def isWarningAppend (e : TimerState × TimerState × Option (List Msg)) : Bool :=
  e.2.2.isSome && e.2.1.warningSent && !e.1.warningSent
    && !(e.2.1.finalSent && !e.1.finalSent)

def countFinalAppends (cfg : TimerCfg) (st : TimerState)
    (invs : List TimerInvocation) : ℕ :=
  ((timerRun cfg st invs).filter isFinalAppend).length

def countWarningAppends (cfg : TimerCfg) (st : TimerState)
    (invs : List TimerInvocation) : ℕ :=
  ((timerRun cfg st invs).filter isWarningAppend).length

/-- The timer instance of the C8 counterexample run:
`mkResearchTimer 100 (3/4) 60` (deadline `min (75) (40)` clamped = `40`). -/
def cexTimerCfg : TimerCfg :=
  { totalSeconds := 100
    warningFrac := 3/4
    warningOffsetSeconds := 60
    roundUpMessage := defaultRoundUpMessage
    finalMessage := defaultFinalMessage
    warningDeadline := 40 }

/-! ## `ChatStreamManager` (`src/graph/checkpoint.py`)

The in-memory staging store (`langgraph` `InMemoryStore`) is modelled as an
association list from (namespace, key) to a stored value, preserving
insertion order for `search`; stored values are either the cursor dict
(`{"index": n}`) or a message-chunk string.  The durable databases are
external: the boolean outcome of a Mongo/Postgres upsert is a parameter.
With `checkpoint_saver=false` no database connection is ever initialized. -/
inductive StoreVal where
  | cursorVal (index : ℕ)
  | strVal (s : String)
  deriving DecidableEq, Repr

abbrev StoreNs := String × String

abbrev Store := List ((StoreNs × String) × StoreVal)

def storeGet (st : Store) (ns : StoreNs) (key : String) : Option StoreVal :=
  List.lookup (ns, key) st

def storePut (st : Store) (ns : StoreNs) (key : String) (v : StoreVal) : Store :=
  match st with
  | [] => [((ns, key), v)]
  | (k, v') :: rest =>
    if k = (ns, key) then (k, v) :: rest else (k, v') :: storePut rest ns key v

def storeSearch (st : Store) (ns : StoreNs) (limit : ℕ) : List StoreVal :=
  ((st.filter (fun e => e.1.1 = ns)).map (fun e => e.2)).take limit

structure ChatStreamManager where
  checkpointSaver : Bool
  /-- Source: `self.mongo_db is not None`. -/
  mongoConnected : Bool
  /-- Source: `self.postgres_conn is not None`. -/
  postgresConnected : Bool
  deriving DecidableEq, Repr

/-- Source: `ChatStreamManager._persist_complete_conversation`.  `dbOutcome` is the
external boolean result of `_persist_to_mongodb`/`_persist_to_postgresql`. -/
def persistCompleteConversation (mgr : ChatStreamManager) (store : Store)
    (ns : StoreNs) (finalIndex : ℕ) (dbOutcome : Bool) : Bool :=
  let memories := storeSearch store ns (finalIndex + 2)
  -- keep truthy non-dict values only (cursor metadata and empty chunks drop)
  let messages := memories.filterMap (fun v =>
    match v with
    | .strVal s => if s ≠ "" then some s else none
    | .cursorVal _ => none)
  if messages.isEmpty then false
  else if ¬ mgr.checkpointSaver then false
  else if mgr.mongoConnected then dbOutcome
  else if mgr.postgresConnected then dbOutcome
  else false

/-- Source: `ChatStreamManager.process_stream_message`: validates inputs, stages the
chunk under an incrementing per-thread cursor, and consolidates on a
terminal finish reason.  (The "cursor" key only ever holds the index dict,
so `int(cursor.value.get("index", 0))` reads that index.) -/
def processStreamMessage (mgr : ChatStreamManager) (store : Store)
    (threadId message finishReason : String) (dbOutcome : Bool) : Store × Bool :=
  if threadId = "" then (store, false)
  else if message = "" then (store, false)
  else
    let ns : StoreNs := ("messages", threadId)
    let step1 :=
      match storeGet store ns "cursor" with
      | none => (storePut store ns "cursor" (.cursorVal 0), 0)
      | some v =>
        let idx := (match v with | .cursorVal n => n | .strVal _ => 0) + 1
        (storePut store ns "cursor" (.cursorVal idx), idx)
    let store2 := storePut step1.1 ns ("chunk_" ++ toString step1.2) (.strVal message)
    if finishReason = "stop" ∨ finishReason = "interrupt" then
      (store2, persistCompleteConversation mgr store2 ns step1.2 dbOutcome)
    else (store2, true)

/-- The legacy `chat_stream_message` wrapper: re-checks the
`LANGGRAPH_CHECKPOINT_SAVER` environment flag on every call and short-circuits
to `false` without touching the manager when it is unset. -/
def chatStreamMessage (envSaver : Bool) (mgr : ChatStreamManager) (store : Store)
    (threadId message finishReason : String) (dbOutcome : Bool) : Store × Bool :=
  if envSaver then processStreamMessage mgr store threadId message finishReason dbOutcome
  else (store, false)

/-! ## `AdaptiveSummarizationMiddleware._drop_orphan_tool_pairs`
(`src/agents/deep_agents/middleware/summarization.py`, lines 444-477; the
copy in `src/agents/deep_agents/middleware.py`, lines 398-433, is
identical).

The loop state: the output built so far (`cleaned`), the set of tool-call
ids of the currently open cluster still awaiting results
(`pending_tool_ids`), and the index in `cleaned` where that cluster starts
(`cluster_start_index`). -/
structure DropState where
  cleaned : List Msg
  pending : List String
  start : Option ℕ
  deriving DecidableEq, Repr

/-- Source comment: "Any other message breaks pending tool chains" - truncate an incomplete
cluster, clear the pending set, and append the message. -/
def dropOtherBranch (st : DropState) (m : Msg) : DropState :=
  let cleaned1 :=
    match st.start with
    | some k => if st.pending ≠ [] then st.cleaned.take k else st.cleaned
    | none => st.cleaned
  { cleaned := cleaned1 ++ [m], pending := [], start := none }

/-- One iteration of the `for message in messages` loop. -/
def dropOrphanStep (st : DropState) (m : Msg) : DropState :=
  match m with
  | Msg.ai c ids =>
    if ids ≠ [] then
      -- AIMessage with truthy tool_calls
      let cleaned1 :=
        match st.start with
        | some k => if st.pending ≠ [] then st.cleaned.take k else st.cleaned
        | none => st.cleaned
      let pending1 := extractToolCallIds (Msg.ai c ids)
      let cleaned2 := cleaned1 ++ [Msg.ai c ids]
      if pending1.isEmpty then
        { cleaned := cleaned2, pending := pending1, start := none }
      else
        { cleaned := cleaned2, pending := pending1, start := some cleaned1.length }
    else dropOtherBranch st (Msg.ai c ids)
  | Msg.tool c cid =>
    if st.pending ≠ [] ∧ cid ∈ st.pending then
      let pending1 := st.pending.erase cid
      { cleaned := st.cleaned ++ [Msg.tool c cid]
        pending := pending1
        start := if pending1.isEmpty then none else st.start }
    else st  -- orphan tool messages are dropped silently
  | m => dropOtherBranch st m

def dropOrphanToolPairs (messages : List Msg) : List Msg :=
  let final := messages.foldl dropOrphanStep ⟨[], [], none⟩
  -- trailing incomplete cluster is truncated away
  match final.start with
  | some k => if final.pending ≠ [] then final.cleaned.take k else final.cleaned
  | none => final.cleaned

/-! ### The pairing invariant

`runChecker pending msgs` walks a message list: outside a cluster
(`pending = []`) an AI message with tool calls opens a cluster expecting its
deduplicated ids, a tool message is a violation (orphan result), anything
else passes; inside a cluster only tool messages matching a pending id are
accepted, each consuming its id.  It returns the pending set at the end, or
`none` on a violation.  A list is well paired iff the walk ends cleanly with
nothing pending: every AI message with tool calls is immediately followed
by exactly its matching tool results, and no orphan tool result occurs. -/
def runChecker : List String → List Msg → Option (List String)
  | pending, [] => some pending
  | pending, m :: rest =>
    if pending.isEmpty then
      match m with
      | Msg.ai _ ids => if ids.isEmpty then runChecker [] rest else runChecker ids.dedup rest
      | Msg.tool _ _ => none
      | _ => runChecker [] rest
    else
      match m with
      | Msg.tool _ cid =>
        if cid ∈ pending then runChecker (pending.erase cid) rest else none
      | _ => none

def wellPaired (msgs : List Msg) : Prop :=
  runChecker [] msgs = some []

instance (msgs : List Msg) : Decidable (wellPaired msgs) := by
  unfold wellPaired
  infer_instance

/-- Invariant of the `_drop_orphan_tool_pairs` loop state: either no cluster
is open and `cleaned` is well paired, or a cluster is open at index `start`,
the part of `cleaned` before it is well paired, and checking the open
cluster suffix leaves exactly `pending` outstanding. -/
def DropInv (st : DropState) : Prop :=
  (st.pending = [] ∧ st.start = none ∧ runChecker [] st.cleaned = some [])
  ∨ (∃ k, st.start = some k ∧ st.pending ≠ [] ∧ k ≤ st.cleaned.length ∧
      runChecker [] (st.cleaned.take k) = some [] ∧
      runChecker [] (st.cleaned.drop k) = some st.pending)

/-! ## `AdaptiveSummarizationMiddleware` budget enforcement
(`src/agents/deep_agents/middleware/summarization.py`, lines 196-557)

External calls are parameters of the configuration:
`cost` is the per-message token count (the middleware's `token_counter` is
`count_tokens_approximately`, which sums a per-message count, so the list
counter is the sum of `cost` over the list); `createSummary` is the
summary-producing model call of the base class's `_create_summary`.
`_build_new_messages` of the upstream base class wraps the summary text in
one synthetic human message.  Message ids (`_ensure_message_ids`, which only
assigns missing ids in place) and `additional_kwargs` truncation metadata
are not part of the message model. -/
structure SummCfg where
  maxTokensBeforeSummary : Option ℕ
  approxCharsPerToken : ℚ
  tokenBudgetMargin : ℚ
  minReservedTokens : ℕ
  cost : Msg → ℕ
  createSummary : List Msg → String

def tokenCounter (cfg : SummCfg) (msgs : List Msg) : ℕ :=
  (msgs.map cfg.cost).sum

def summaryPrefixText : String :=
  "Here is a summary of the conversation to date:\n\n"

/-- The upstream `SummarizationMiddleware._build_new_messages`: one
synthetic summary message. -/
def buildNewMessages (summaryText : String) : List Msg :=
  [Msg.human (summaryPrefixText ++ summaryText) none]

/-- Python `int(q)` for `q ≥ 0` (truncation = floor), as `ℕ`. -/
def ratFloorToNat (q : ℚ) : ℕ :=
  Int.toNat ⌊q⌋

/-- Source: `_max_preservable_tokens`: the budget minus the larger of
`min_reserved_tokens` and the margin fraction, floored at half the budget
(and at least 1). -/
def maxPreservableTokens (cfg : SummCfg) : ℕ :=
  match cfg.maxTokensBeforeSummary with
  | none => 0
  | some b =>
    let reserved := max cfg.minReservedTokens (ratFloorToNat ((b : ℚ) * cfg.tokenBudgetMargin))
    let baseline := max (b / 2) 1
    max (b - reserved) baseline

/-- Source: `_find_last_human_index`. -/
def findLastHumanIndex (msgs : List Msg) : Option ℕ :=
  (List.range msgs.length).reverse.find? (fun i => (msgs.getD i defaultMsg).isHuman)

/-- Source: `content_text[:max_chars].rsplit(" ", 1)[0]`: everything before the last
space of the cut, or the whole cut when it has no space. -/
def dropAfterLastSpace (s : String) : String :=
  let r := s.data.reverse
  let rem := r.dropWhile (fun c => c ≠ ' ')
  if rem.isEmpty then s else String.mk rem.tail.reverse

/-- Source: `message.model_copy(update={"content": ...})`: same message kind, new
content (tool calls / ids / names preserved). -/
def setMsgContent : Msg → String → Msg
  | Msg.human _ n, c => Msg.human c n
  | Msg.ai _ ids, c => Msg.ai c ids
  | Msg.tool _ tid, c => Msg.tool c tid
  | Msg.system _, c => Msg.system c

/-- Source: `_truncate_if_needed`: character-based truncation to a token target,
backing off to the last whitespace boundary and appending the fixed
truncation notice.  (`_stringify_message_content` is the content string
itself here, since the embedded messages carry plain-string content.) -/
def truncateIfNeeded (cfg : SummCfg) (m : Msg) (targetTokens0 : ℕ) : Msg :=
  let targetTokens := max targetTokens0 1
  if cfg.cost m ≤ targetTokens then m
  else
    let contentText := m.content
    if contentText = "" then m
    else
      let maxChars := max (ratFloorToNat ((targetTokens : ℚ) * cfg.approxCharsPerToken)) 32
      let cut := String.mk (contentText.data.take maxChars)
      let backedOff := pyStrip (dropAfterLastSpace cut)
      let truncated := if backedOff = "" then cut else backedOff
      let omitted := contentText.length - truncated.length
      setMsgContent m (truncated
        ++ "\n\n[Context truncated to preserve window. Omitted approximately "
        ++ toString omitted ++ " characters.]")

/-- One message cluster: an AI tool-call message with its matching
tool-result messages, or a singleton; `missing` holds tool-call ids with no
matching result. -/
structure Cluster where
  indices : List ℕ
  missing : List String
  deriving DecidableEq, Repr

/-- The `while j < len(messages) and missing_ids` scan of
`_collect_message_clusters`: gather matching tool results after an AI
tool-call message, skipping non-matching tool messages, stopping at any
other message.  Fuel counts the remaining positions, so fuel
`msgs.length - j` makes the recursion exact. -/
def gatherCluster (msgs : List Msg) : ℕ → ℕ → List String → List ℕ × List String
  | 0, _, missing => ([], missing)
  | fuel + 1, j, missing =>
    if missing = [] then ([], missing)
    else
      match msgs.getD j defaultMsg with
      | Msg.tool _ cid =>
        if cid ∈ missing then
          let r := gatherCluster msgs fuel (j + 1) (missing.erase cid)
          (j :: r.1, r.2)
        else gatherCluster msgs fuel (j + 1) missing
      | _ => ([], missing)

/-- The outer `for idx, message in enumerate(messages)` loop of
`_collect_message_clusters` (fuel = remaining positions).  Cluster indices
are produced in ascending order, matching the source's `sorted(...)`. -/
def collectClustersAux (msgs : List Msg) : ℕ → ℕ → List ℕ → List Cluster
  | 0, _, _ => []
  | fuel + 1, idx, visited =>
    if idx ∈ visited then collectClustersAux msgs fuel (idx + 1) visited
    else
      match msgs.getD idx defaultMsg with
      | Msg.ai c ids =>
        if ids ≠ [] then
          let tids := extractToolCallIds (Msg.ai c ids)
          let r := gatherCluster msgs (msgs.length - (idx + 1)) (idx + 1) tids
          { indices := idx :: r.1, missing := r.2 }
            :: collectClustersAux msgs fuel (idx + 1) (idx :: visited ++ r.1)
        else
          { indices := [idx], missing := [] }
            :: collectClustersAux msgs fuel (idx + 1) (idx :: visited)
      | _ =>
        { indices := [idx], missing := [] }
          :: collectClustersAux msgs fuel (idx + 1) (idx :: visited)

/-- The final `clusters.sort(key=lambda entry: entry["indices"][0])`: a
stable sort by first index (the construction already yields ascending first
indices, so this is the identity on its output). -/
def insertClusterSorted (c : Cluster) : List Cluster → List Cluster
  | [] => [c]
  | d :: rest =>
    if d.indices.headD 0 ≤ c.indices.headD 0 then d :: insertClusterSorted c rest
    else c :: d :: rest

def collectClusters (msgs : List Msg) : List Cluster :=
  (collectClustersAux msgs msgs.length 0 []).foldl
    (fun acc c => insertClusterSorted c acc) []

/-- Source: `preserve_flags[idx] = b` for every idx in the cluster. -/
def setFlags (indices : List ℕ) (b : Bool) (flags : List Bool) : List Bool :=
  indices.foldl (fun f i => f.set i b) flags

/-- Source: `_synchronize_tool_preservation`: a cluster with missing results is
forced unpreserved; otherwise all members follow "preserve if any member is
preserved". -/
def syncCluster (flags : List Bool) (c : Cluster) : List Bool :=
  if c.missing ≠ [] then setFlags c.indices false flags
  else
    let shouldPreserve := c.indices.any (fun i => flags.getD i false)
    if shouldPreserve ≠ c.indices.all (fun i => flags.getD i false) then
      setFlags c.indices shouldPreserve flags
    else flags

def syncToolPreservation (clusters : List Cluster) (flags : List Bool) : List Bool :=
  clusters.foldl syncCluster flags

/-- Source: `_select_drop_cluster`: the first fully preserved, non-missing cluster
not containing the latest human message. -/
def selectDropCluster (clusters : List Cluster) (flags : List Bool)
    (lastHumanIdx : Option ℕ) : Option (List ℕ) :=
  clusters.findSome? (fun c =>
    if c.missing ≠ [] then none
    else if (match lastHumanIdx with | some i => c.indices.contains i | none => false) then none
    else if c.indices.all (fun i => flags.getD i false) then some c.indices
    else none)

/-- Source: `_assemble_messages`: unpreserved messages are summarized into one
synthetic message prepended before the preserved messages in order. -/
def assembleMessages (cfg : SummCfg) (msgs : List Msg) (flags : List Bool) : List Msg :=
  let summaryIndices := (List.range flags.length).filter (fun i => ¬ flags.getD i false)
  let preservedIndices := (List.range flags.length).filter (fun i => flags.getD i false)
  let summaryMessages :=
    if summaryIndices.isEmpty then ([] : List Msg)
    else buildNewMessages
      (cfg.createSummary (summaryIndices.map (fun i => msgs.getD i defaultMsg)))
  summaryMessages ++ preservedIndices.map (fun i => msgs.getD i defaultMsg)

/-- The `while self.token_counter(current) > budget` drop loop of
`_rebalance_until_within_budget`.  Each successful iteration unpreserves a
fully-preserved cluster, so at most `flags.length` iterations can run; fuel
`msgs.length + 1` therefore reproduces the loop exactly (fuel exhaustion
coincides with no droppable cluster remaining). -/
def dropClusterLoop (cfg : SummCfg) (b : ℕ) (msgs : List Msg)
    (lastHumanIdx : Option ℕ) : ℕ → List Bool → List Msg → List Bool × List Msg
  | 0, flags, current => (flags, current)
  | fuel + 1, flags, current =>
    if tokenCounter cfg current ≤ b then (flags, current)
    else
      match selectDropCluster (collectClusters msgs) flags lastHumanIdx with
      | none => (flags, current)
      | some indices =>
        let flags1 := setFlags indices false flags
        let flags2 := syncToolPreservation (collectClusters msgs) flags1
        let current1 := assembleMessages cfg msgs flags2
        dropClusterLoop cfg b msgs lastHumanIdx fuel flags2 current1

/-- The final fallback of `_rebalance_until_within_budget`: collapse
everything except the latest human message into one summary message; when
even summary-plus-trailing-human exceeds the budget, keep only the summary. -/
def collapseFallback (cfg : SummCfg) (b : ℕ) (msgs2 : List Msg)
    (lastHumanIdx : Option ℕ) : List Msg :=
  let trailing :=
    match lastHumanIdx with
    | some i => [msgs2.getD i defaultMsg]
    | none => ([] : List Msg)
  let summarySource :=
    match lastHumanIdx with
    | some i => msgs2.eraseIdx i
    | none => msgs2
  let summaryMessages := buildNewMessages (cfg.createSummary summarySource)
  let collapsed := summaryMessages ++ trailing
  if b < tokenCounter cfg collapsed ∧ trailing ≠ [] then summaryMessages
  else collapsed

/-- Source: `_rebalance_until_within_budget` (lines 293-352). -/
def rebalanceUntilWithinBudget (cfg : SummCfg) (msgs : List Msg)
    (flags0 : List Bool) (lastHumanIdx : Option ℕ) : List Msg :=
  match cfg.maxTokensBeforeSummary with
  | none => msgs
  | some b =>
    let flags1 := syncToolPreservation (collectClusters msgs) flags0
    let current1 := assembleMessages cfg msgs flags1
    let r := dropClusterLoop cfg b msgs lastHumanIdx (msgs.length + 1) flags1 current1
    if tokenCounter cfg r.2 ≤ b then r.2
    else
      -- further truncate the preserved latest human message and rebuild
      let retryOk :=
        match lastHumanIdx with
        | some i => r.1.getD i false
        | none => false
      let msgs2 :=
        match lastHumanIdx with
        | some i =>
          if r.1.getD i false then
            msgs.set i (truncateIfNeeded cfg (msgs.getD i defaultMsg)
              (max cfg.minReservedTokens (b / 4)))
          else msgs
        | none => msgs
      let flags2 := syncToolPreservation (collectClusters msgs2) r.1
      let current2 := assembleMessages cfg msgs2 flags2
      if retryOk = true ∧ tokenCounter cfg current2 ≤ b then current2
      else collapseFallback cfg b msgs2 lastHumanIdx

/-- Source: `_enforce_budget` (lines 246-291).  The message type models content
messages (`RemoveMessage` sentinels are separated out in `before_model`
before this runs), so the source's `RemoveMessage` prune is the identity
here; `_ensure_message_ids` only assigns missing message ids in place and
is not part of the message model. -/
def enforceBudget (cfg : SummCfg) (msgs : List Msg) : List Msg × Bool :=
  match cfg.maxTokensBeforeSummary with
  | none => (msgs, false)
  | some b =>
    if tokenCounter cfg msgs ≤ b then (msgs, false)
    else if msgs.isEmpty then (msgs, false)
    else
      let lastHumanIdx := findLastHumanIndex msgs
      let start :=
        match lastHumanIdx with
        | some i =>
          let m1 := truncateIfNeeded cfg (msgs.getD i defaultMsg) (maxPreservableTokens cfg)
          (msgs.set i m1, (List.replicate msgs.length false).set i true, cfg.cost m1)
        | none => (msgs, List.replicate msgs.length false, 0)
      let normalized := start.1
      let availableBudget := maxPreservableTokens cfg
      -- greedy newest-to-oldest preservation walk
      let walked := (List.range normalized.length).reverse.foldl
        (fun (p : List Bool × ℕ) idx =>
          if p.1.getD idx false then p
          else
            let messageTokens := cfg.cost (normalized.getD idx defaultMsg)
            if p.2 + messageTokens ≤ availableBudget then
              (p.1.set idx true, p.2 + messageTokens)
            else p)
        (start.2.1, start.2.2)
      let balanced := rebalanceUntilWithinBudget cfg normalized walked.1 lastHumanIdx
      let balanced2 := dropOrphanToolPairs balanced
      (balanced2, decide (balanced2 ≠ msgs))

/-- A concrete middleware configuration for witness instances: budget 5
tokens, content-length per-message cost, constant summary text. -/
def c1WitnessCfg : SummCfg :=
  { maxTokensBeforeSummary := some 5
    approxCharsPerToken := 16/5
    tokenBudgetMargin := 1/5
    minReservedTokens := 768
    cost := fun m => (Msg.content m).length
    createSummary := fun _ => "s" }

end DeepResearchAgent

namespace DeepResearchAgent

/-- C7: `compute_summary_budget` returns 180000 at token_limit 200000 and
4096 at 8192; and for every requested budget the result is the requested
value clamped into the interval from 2000 up to
`max (token_limit - safety_margin) (token_limit / 2)` with
`safety_margin = max (token_limit / 10) 6000`; in particular requested
190000 at limit 200000 gives 180000 and requested 160000 gives 160000. -/
theorem compute_summary_budget_clamps (limit r : ℤ) (h : 0 < limit) :
    computeSummaryBudget 200000 none = 180000 ∧
    computeSummaryBudget 8192 none = 4096 ∧
    computeSummaryBudget limit (some r)
      = max (min r (max (limit - max (Int.ediv limit 10) 6000) (Int.ediv limit 2))) 2000 ∧
    computeSummaryBudget 200000 (some 190000) = 180000 ∧
    computeSummaryBudget 200000 (some 160000) = 160000 := by
  refine ⟨by decide, by decide, ?_, by decide, by decide⟩
  unfold computeSummaryBudget
  simp only [if_neg (not_le.mpr h)]
  omega

/-- Witness for C7 at a concrete positive limit. -/
theorem compute_summary_budget_clamps_witness :
    computeSummaryBudget 200000 none = 180000 ∧
    computeSummaryBudget 8192 none = 4096 ∧
    computeSummaryBudget 200000 (some 190000)
      = max (min 190000 (max (200000 - max (Int.ediv 200000 10) 6000) (Int.ediv 200000 2))) 2000 ∧
    computeSummaryBudget 200000 (some 190000) = 180000 ∧
    computeSummaryBudget 200000 (some 160000) = 160000 := by
  have h := compute_summary_budget_clamps 200000 190000 (by decide)
  exact ⟨h.1, h.2.1, h.2.2.1, h.2.2.2.1, h.2.2.2.2⟩


/-- C4: a successful planner invocation (past the iteration ceiling, with a
validated generated plan): (a) a plan with steps and a model-claimed
`has_enough_context` is stored with `has_enough_context` forced to false;
(b) routing: steps & auto-accept → research_team, steps & not auto-accept →
human_feedback, no steps & enough context → reporter, otherwise →
human_feedback; (c) `plan_iterations` is incremented and a validated `Plan`
object is stored. -/
theorem planner_node_spec (pi mpi : ℕ) (cp : PlanState) (p : Plan) (auto : Bool)
    (hIter : pi < mpi) :
    (p.steps ≠ [] → p.hasEnoughContext = true →
      ∃ q, (plannerNode pi mpi cp (some p) auto).update = some (q, pi + 1) ∧
        q.hasEnoughContext = false) ∧
    (p.steps ≠ [] → auto = true →
      (plannerNode pi mpi cp (some p) auto).goto = Node.researchTeam) ∧
    (p.steps ≠ [] → auto = false →
      (plannerNode pi mpi cp (some p) auto).goto = Node.humanFeedback) ∧
    (p.steps = [] → p.hasEnoughContext = true →
      (plannerNode pi mpi cp (some p) auto).goto = Node.reporter) ∧
    (p.steps = [] → p.hasEnoughContext = false →
      (plannerNode pi mpi cp (some p) auto).goto = Node.humanFeedback) ∧
    (∃ q, (plannerNode pi mpi cp (some p) auto).update = some (q, pi + 1)) := by
  have hnot : ¬ pi ≥ mpi := Nat.not_le.mpr hIter
  refine ⟨?_, ?_, ?_, ?_, ?_, ?_⟩
  · intro hs hc
    refine ⟨{ p with hasEnoughContext := false }, ?_, rfl⟩
    simp [plannerNode, hnot, List.isEmpty_iff, hs, hc]
  · intro hs ha
    simp [plannerNode, hnot, List.isEmpty_iff, hs, ha]
  · intro hs ha
    simp [plannerNode, hnot, List.isEmpty_iff, hs, ha]
  · intro hs hc
    simp [plannerNode, hnot, List.isEmpty_iff, hs, hc]
  · intro hs hc
    simp [plannerNode, hnot, List.isEmpty_iff, hs, hc]
  · by_cases hs : p.steps = [] <;> by_cases hc : p.hasEnoughContext <;>
      simp [plannerNode, hnot, List.isEmpty_iff, hs, hc]

/-- Witness for C4 at a concrete successful invocation. -/
theorem planner_node_spec_witness :
    ((Plan.mk "t" "th" "en-US" true [emptyStep]).steps ≠ [] →
      (Plan.mk "t" "th" "en-US" true [emptyStep]).hasEnoughContext = true →
      ∃ q, (plannerNode 0 1 PlanState.absent
          (some (Plan.mk "t" "th" "en-US" true [emptyStep])) true).update = some (q, 0 + 1) ∧
        q.hasEnoughContext = false) ∧
    ((Plan.mk "t" "th" "en-US" true [emptyStep]).steps ≠ [] → true = true →
      (plannerNode 0 1 PlanState.absent
        (some (Plan.mk "t" "th" "en-US" true [emptyStep])) true).goto = Node.researchTeam) := by
  have h := planner_node_spec 0 1 PlanState.absent
    (Plan.mk "t" "th" "en-US" true [emptyStep]) true (by decide)
  exact ⟨h.1, h.2.1⟩

/-- Helper: a string whose upper-cased form starts with "[ACCEPTED]" cannot
also start with "[EDIT_PLAN]". -/
theorem pyStartsWith_accepted_not_edit (s : String)
    (h : pyStartsWith s "[ACCEPTED]" = true) :
    pyStartsWith s "[EDIT_PLAN]" = false := by
  unfold pyStartsWith at h ⊢
  rw [List.isPrefixOf_iff_prefix] at h
  obtain ⟨t, ht⟩ := h
  have hs : s.data = '[' :: 'A' :: ("CCEPTED]".data ++ t) := by
    rw [← ht]; exact rfl
  rw [Bool.eq_false_iff]
  intro hp
  rw [List.isPrefixOf_iff_prefix] at hp
  obtain ⟨u, hu⟩ := hp
  have hu2 : '[' :: 'E' :: ("DIT_PLAN]".data ++ u) = s.data := by
    rw [← hu]; exact rfl
  rw [hs] at hu2
  simp at hu2

/-- C5: for a non-auto-accepted plan, feedback whose upper-cased form starts
with "[EDIT_PLAN]" records the feedback as a feedback-named human message
and routes to planner; feedback starting with "[ACCEPTED]" proceeds (to
research_team when `current_plan` is a genuine Plan; otherwise to reporter
when `plan_iterations` exceeds 1, and to termination otherwise); any other
feedback value is a TypeError. -/
theorem human_feedback_node_spec (fb : String) (cp : PlanState) (pi : ℕ) :
    (fb ≠ "" → pyStartsWith (pyUpper fb) "[EDIT_PLAN]" = true →
      humanFeedbackNode false fb cp pi
        = HFOutcome.cmd Node.planner [Msg.human fb (some "feedback")] none) ∧
    (fb ≠ "" → pyStartsWith (pyUpper fb) "[ACCEPTED]" = true →
      (∀ p, cp = PlanState.planObj p →
        humanFeedbackNode false fb cp pi
          = HFOutcome.cmd Node.researchTeam [] (some (p, pi, p.locale))) ∧
      ((∀ p, cp ≠ PlanState.planObj p) → 1 < pi →
        humanFeedbackNode false fb cp pi = HFOutcome.cmd Node.reporter [] none) ∧
      ((∀ p, cp ≠ PlanState.planObj p) → pi ≤ 1 →
        humanFeedbackNode false fb cp pi = HFOutcome.cmd Node.endNode [] none)) ∧
    (pyStartsWith (pyUpper fb) "[EDIT_PLAN]" = false →
      pyStartsWith (pyUpper fb) "[ACCEPTED]" = false →
      humanFeedbackNode false fb cp pi = HFOutcome.typeError) ∧
    (fb = "" → humanFeedbackNode false fb cp pi = HFOutcome.typeError) := by
  refine ⟨?_, ?_, ?_, ?_⟩
  · intro hne hpre
    simp [humanFeedbackNode, hne, hpre]
  · intro hne hpre
    have hedit := pyStartsWith_accepted_not_edit (pyUpper fb) hpre
    refine ⟨?_, ?_, ?_⟩
    · rintro p rfl
      simp [humanFeedbackNode, hne, hpre, hedit]
    · intro hnp hgt
      cases cp with
      | planObj p => exact absurd rfl (hnp p)
      | dictObj s => simp [humanFeedbackNode, hne, hpre, hedit, hgt]
      | rawStr s => simp [humanFeedbackNode, hne, hpre, hedit, hgt]
      | absent => simp [humanFeedbackNode, hne, hpre, hedit, hgt]
    · intro hnp hle
      have hngt : ¬ 1 < pi := Nat.not_lt.mpr hle
      cases cp with
      | planObj p => exact absurd rfl (hnp p)
      | dictObj s => simp [humanFeedbackNode, hne, hpre, hedit, hngt]
      | rawStr s => simp [humanFeedbackNode, hne, hpre, hedit, hngt]
      | absent => simp [humanFeedbackNode, hne, hpre, hedit, hngt]
  · intro he ha
    by_cases hne : fb = ""
    · simp [humanFeedbackNode, hne]
    · simp [humanFeedbackNode, hne, he, ha]
  · intro h
    simp [humanFeedbackNode, h]

/-- Witness for C5: edit feedback is recorded as a feedback-named human
message and routed to the planner, and accepted feedback with a non-Plan
`current_plan` at `plan_iterations = 2` routes to the reporter. -/
theorem human_feedback_node_spec_witness :
    humanFeedbackNode false "[edit_plan] add a step" (PlanState.rawStr "junk") 2
      = HFOutcome.cmd Node.planner
          [Msg.human "[edit_plan] add a step" (some "feedback")] none ∧
    humanFeedbackNode false "[accepted] looks good" (PlanState.rawStr "junk") 2
      = HFOutcome.cmd Node.reporter [] none := by
  constructor
  · exact (human_feedback_node_spec "[edit_plan] add a step"
      (PlanState.rawStr "junk") 2).1 (by decide) (by decide)
  · have h := (human_feedback_node_spec "[accepted] looks good"
      (PlanState.rawStr "junk") 2).2.1 (by decide) (by decide)
    exact h.2.1 (by intro p hp; cases hp) (by decide)

/-- C10: the coordinator routes away from termination exactly when the
response carries at least one tool call (to background_investigator when
background investigation is enabled, else to planner); locale and
research_topic come from the first `handoff_to_planner` call supplying both
arguments non-empty, falling back to prior state values (locale defaulting
to "en-US", research_topic to ""); zero tool calls terminate the workflow. -/
theorem coordinator_node_spec (tcs : List ToolCall) (bg : Bool)
    (sl st : Option String) :
    (tcs ≠ [] → (coordinatorNode tcs bg sl st).goto
      = (if bg then Node.backgroundInvestigator else Node.planner)) ∧
    (tcs = [] → (coordinatorNode tcs bg sl st).goto = Node.endNode) ∧
    (∀ tc, tcs.find? isCompleteHandoff = some tc →
      (coordinatorNode tcs bg sl st).locale = tc.argLocale ∧
      (coordinatorNode tcs bg sl st).researchTopic = tc.argTopic) ∧
    (tcs.find? isCompleteHandoff = none →
      (coordinatorNode tcs bg sl st).locale = sl.getD "en-US" ∧
      (coordinatorNode tcs bg sl st).researchTopic = st.getD "") := by
  refine ⟨?_, ?_, ?_, ?_⟩
  · intro hne
    rcases hf : tcs.find? isCompleteHandoff with _ | tc <;>
      simp [coordinatorNode, List.isEmpty_iff, hne, hf]
  · intro h
    subst h
    simp [coordinatorNode]
  · intro tc hf
    have hne : tcs ≠ [] := by
      intro h
      subst h
      simp at hf
    constructor <;> simp [coordinatorNode, List.isEmpty_iff, hne, hf]
  · intro hf
    by_cases hne : tcs = []
    · subst hne
      simp [coordinatorNode]
    · constructor <;> simp [coordinatorNode, List.isEmpty_iff, hne, hf]

/-- Witness for C10: one non-handoff tool call routes to planner with state
fallbacks. -/
theorem coordinator_node_spec_witness :
    (coordinatorNode [ToolCall.mk "other_tool" "" ""] false none none).goto
        = (if false then Node.backgroundInvestigator else Node.planner) ∧
    (coordinatorNode [ToolCall.mk "other_tool" "" ""] false none none).locale
        = (none : Option String).getD "en-US" ∧
    (coordinatorNode [ToolCall.mk "other_tool" "" ""] false none none).researchTopic
        = (none : Option String).getD "" := by
  have h := coordinator_node_spec [ToolCall.mk "other_tool" "" ""] false none none
  exact ⟨h.1 (by decide), h.2.2.2 (by decide)⟩

/-- Helper: characterization of `firstUnexecutedIdx` as the least index of a
step with empty `execution_res`. -/
theorem firstUnexecutedIdx_spec (steps : List Step) (i : ℕ)
    (h : firstUnexecutedIdx steps = some i) :
    i < steps.length ∧ (steps.getD i emptyStep).unexecuted = true ∧
      ∀ j, j < i → (steps.getD j emptyStep).unexecuted = false := by
  unfold firstUnexecutedIdx at h
  rw [List.findIdx?_eq_some_iff_getElem] at h
  obtain ⟨hlt, hp, hall⟩ := h
  refine ⟨hlt, ?_, ?_⟩
  · simpa [List.getD_eq_getElem?_getD, List.getElem?_eq_getElem hlt] using hp
  · intro j hj
    have hjl : j < steps.length := Nat.lt_trans hj hlt
    have := hall j hj
    simpa [List.getD_eq_getElem?_getD, List.getElem?_eq_getElem hjl] using this

/-- C3: step execution targets exactly the first step in declaration order
with empty `execution_res`; steps with non-empty `execution_res` are never
re-executed (all other steps are unchanged in the returned plan); when the
selected step's attempt count has reached the ceiling (the integer value of
RESEARCH_STEP_MAX_ATTEMPTS, default 3, coerced to 3 when non-positive or
unparsable), execution routes to the planner with that step's
`execution_res` left unfilled. -/
theorem execute_agent_step_spec (plan : Plan) (att : AttemptMap)
    (env : Option String) (resp : String) (hne : plan.steps ≠ []) :
    (∀ i, firstUnexecutedIdx plan.steps = some i →
      (plan.steps.getD i emptyStep).unexecuted = true ∧
      (∀ j, j < i → (plan.steps.getD j emptyStep).unexecuted = false)) ∧
    (∀ i, firstUnexecutedIdx plan.steps = some i → ∀ j, j ≠ i →
      (executeAgentStep plan att env resp).plan.steps.getD j emptyStep
        = plan.steps.getD j emptyStep) ∧
    (∀ i, firstUnexecutedIdx plan.steps = some i →
      ((att.get (plan.steps.getD i emptyStep).title : ℤ) ≥ maxAttemptsFromEnv env →
        (executeAgentStep plan att env resp).goto = Node.planner ∧
        (executeAgentStep plan att env resp).plan = plan) ∧
      ((att.get (plan.steps.getD i emptyStep).title : ℤ) < maxAttemptsFromEnv env →
        (executeAgentStep plan att env resp).goto = Node.researchTeam ∧
        (executeAgentStep plan att env resp).plan.steps.getD i emptyStep
          = { plan.steps.getD i emptyStep with executionRes := some resp })) ∧
    maxAttemptsFromEnv none = 3 ∧
    (∀ s n, pyParseInt s = some n → 0 < n → maxAttemptsFromEnv (some s) = n) ∧
    (∀ s n, pyParseInt s = some n → n ≤ 0 → maxAttemptsFromEnv (some s) = 3) ∧
    (∀ s, pyParseInt s = none → maxAttemptsFromEnv (some s) = 3) := by
  refine ⟨?_, ?_, ?_, ?_, ?_, ?_, ?_⟩
  · intro i hi
    exact ⟨(firstUnexecutedIdx_spec plan.steps i hi).2.1,
      (firstUnexecutedIdx_spec plan.steps i hi).2.2⟩
  · intro i hi j hj
    have hlt := (firstUnexecutedIdx_spec plan.steps i hi).1
    simp only [executeAgentStep, hi]
    by_cases hge : (att.get (plan.steps.getD i emptyStep).title : ℤ) ≥ maxAttemptsFromEnv env
    · rw [if_pos hge]
    · rw [if_neg hge]
      simp [List.getD_eq_getElem?_getD, List.getElem?_set_ne (Ne.symm hj)]
  · intro i hi
    constructor
    · intro hge
      refine ⟨?_, ?_⟩ <;> (simp only [executeAgentStep, hi]; rw [if_pos hge])
    · intro hltAtt
      have hnge : ¬ (att.get (plan.steps.getD i emptyStep).title : ℤ) ≥ maxAttemptsFromEnv env := by
        omega
      have hlt := (firstUnexecutedIdx_spec plan.steps i hi).1
      refine ⟨?_, ?_⟩ <;> (simp only [executeAgentStep, hi]; rw [if_neg hnge])
      simp [List.getD_eq_getElem?_getD, List.getElem?_set_self hlt]
  · rfl
  · intro s n hp hn
    simp [maxAttemptsFromEnv, hp, Int.not_le.mpr hn]
  · intro s n hp hn
    simp [maxAttemptsFromEnv, hp, hn]
  · intro s hp
    simp [maxAttemptsFromEnv, hp]

/-- Witness for C3: a two-step plan whose second (first unexecuted) step has
exhausted its attempts routes to the planner with the plan untouched. -/
theorem execute_agent_step_spec_witness :
    ((Plan.mk "p" "th" "en-US" false
        [Step.mk "s1" "d1" "research" true (some "done"),
         Step.mk "s2" "d2" "research" true none]).steps ≠ []) ∧
    ((executeAgentStep
        (Plan.mk "p" "th" "en-US" false
          [Step.mk "s1" "d1" "research" true (some "done"),
           Step.mk "s2" "d2" "research" true none])
        [("s2", 3)] none "resp").goto = Node.planner ∧
      (executeAgentStep
        (Plan.mk "p" "th" "en-US" false
          [Step.mk "s1" "d1" "research" true (some "done"),
           Step.mk "s2" "d2" "research" true none])
        [("s2", 3)] none "resp").plan
        = Plan.mk "p" "th" "en-US" false
          [Step.mk "s1" "d1" "research" true (some "done"),
           Step.mk "s2" "d2" "research" true none]) := by
  refine ⟨by decide, ?_⟩
  have h := (execute_agent_step_spec
    (Plan.mk "p" "th" "en-US" false
      [Step.mk "s1" "d1" "research" true (some "done"),
       Step.mk "s2" "d2" "research" true none])
    [("s2", 3)] none "resp" (by decide)).2.2.1 1 (by decide)
  exact h.1 (by decide)


/-- C6: `edit_file` on a file whose content contains `old_string` more than
once, without `replace_all`, returns the Ambiguous error naming the
occurrence count and performs no state update (the error constructors carry
no files mapping, so the state `files` mapping is unchanged); an absent
`old_string` yields the not-found error; a unique occurrence is replaced
(first occurrence); with `replace_all` every occurrence is replaced and the
success message reports the number of replacements. -/
theorem edit_file_spec (files : FileMap) (key old new_ content : String)
    (hlook : files.lookup key = some content) :
    (1 < countOccs old.data content.data →
      editFile files key old new_ false
        = EditResult.errAmbiguous old (countOccs old.data content.data)) ∧
    (countOccs old.data content.data = 0 → ∀ ra,
      editFile files key old new_ ra = EditResult.errStringNotFound old) ∧
    (countOccs old.data content.data = 1 →
      editFile files key old new_ false
        = EditResult.ok
            (files.insert key (String.mk (pyReplaceFirst old.data new_.data content.data)))
            none) ∧
    (0 < countOccs old.data content.data →
      editFile files key old new_ true
        = EditResult.ok
            (files.insert key (String.mk (pyReplaceAll old.data new_.data content.data)))
            (some (countOccs old.data content.data))) := by
  refine ⟨?_, ?_, ?_, ?_⟩
  · intro hgt
    have hpos : 0 < countOccs old.data content.data := Nat.lt_of_lt_of_le Nat.one_pos hgt.le
    simp [editFile, hlook, containsSub, hpos, hgt]
  · intro hz ra
    simp [editFile, hlook, containsSub, hz]
  · intro hone
    simp [editFile, hlook, containsSub, hone]
  · intro hpos
    simp [editFile, hlook, containsSub, hpos]

/-- Witness for C6: a file containing "x" twice rejects a non-replace_all
edit with the Ambiguous error counting 2 occurrences, and a replace_all edit
replaces both. -/
theorem edit_file_spec_witness :
    editFile [("a.txt", "x y x")] "a.txt" "x" "z" false
        = EditResult.errAmbiguous "x" 2 ∧
    editFile [("a.txt", "x y x")] "a.txt" "x" "z" true
        = EditResult.ok [("a.txt", "z y z")] (some 2) := by
  have h := edit_file_spec [("a.txt", "x y x")] "a.txt" "x" "z" "x y x" (by decide)
  constructor
  · have h1 := h.1 (by decide)
    rw [h1]
    decide
  · have h4 := h.2.2.2 (by decide)
    rw [h4]
    decide

/-- Helper: a successfully constructed timer has positive `total_seconds`. -/
theorem mkResearchTimer_pos {total frac offset : ℚ} {ru : Option (String → String)}
    {fm : Option String} {cfg : TimerCfg}
    (h : mkResearchTimer total frac offset ru fm = some cfg) : 0 < total := by
  by_contra hc
  rw [not_lt] at hc
  simp [mkResearchTimer, hc] at h

/-- Helper: fields of a successfully constructed timer. -/
theorem mkResearchTimer_fields {total frac offset : ℚ} {ru : Option (String → String)}
    {fm : Option String} {cfg : TimerCfg}
    (h : mkResearchTimer total frac offset ru fm = some cfg) :
    cfg.totalSeconds = total ∧
    cfg.warningDeadline
      = max (min (total * max frac 0)
          (if total > max offset 0 then total - max offset 0 else total)) 0 := by
  have hpos := mkResearchTimer_pos h
  rw [mkResearchTimer, if_neg (not_le.mpr hpos)] at h
  cases h
  exact ⟨rfl, rfl⟩

/-- Helper: one `before_model` invocation never clears flags and preserves a
recorded start time. -/
theorem timerBeforeModel_mono (cfg : TimerCfg) (st : TimerState) (now : ℚ)
    (msgs : List Msg) :
    (st.finalSent = true → (timerBeforeModel cfg st now msgs).1.finalSent = true) ∧
    (st.warningSent = true → (timerBeforeModel cfg st now msgs).1.warningSent = true) ∧
    (∀ t0, st.startTime = some t0 →
      (timerBeforeModel cfg st now msgs).1.startTime = some t0) := by
  obtain ⟨st0, w, f⟩ := st
  cases st0 with
  | none =>
    refine ⟨?_, ?_, ?_⟩
    · intro h; simpa [timerBeforeModel] using h
    · intro h; simpa [timerBeforeModel] using h
    · intro t0 ht; simp at ht
  | some t0 =>
    refine ⟨?_, ?_, ?_⟩
    · intro h
      simp only [timerBeforeModel]
      split_ifs <;> simp_all
    · intro h
      simp only [timerBeforeModel]
      split_ifs <;> simp_all
    · intro t1 ht
      simp only [timerBeforeModel]
      split_ifs <;> simp_all

/-- Helper: once `_final_sent` holds, no later invocation appends the final
message. -/
theorem countFinalAppends_of_finalSent (cfg : TimerCfg) (st : TimerState)
    (invs : List TimerInvocation) (h : st.finalSent = true) :
    countFinalAppends cfg st invs = 0 := by
  induction invs generalizing st with
  | nil => rfl
  | cons inv rest ih =>
    have hpost := ((timerBeforeModel_mono cfg st inv.now inv.messages).1) h
    unfold countFinalAppends timerRun
    rw [List.filter_cons]
    have hev : isFinalAppend
        (st, (timerBeforeModel cfg st inv.now inv.messages).1,
          (timerBeforeModel cfg st inv.now inv.messages).2) = false := by
      simp [isFinalAppend, h]
    rw [if_neg (by simp [hev])]
    exact ih _ hpost

/-- Helper: once `_warning_sent` holds, no later invocation appends the
warning message. -/
theorem countWarningAppends_of_warningSent (cfg : TimerCfg) (st : TimerState)
    (invs : List TimerInvocation) (h : st.warningSent = true) :
    countWarningAppends cfg st invs = 0 := by
  induction invs generalizing st with
  | nil => rfl
  | cons inv rest ih =>
    have hpost := ((timerBeforeModel_mono cfg st inv.now inv.messages).2.1) h
    unfold countWarningAppends timerRun
    rw [List.filter_cons]
    have hev : isWarningAppend
        (st, (timerBeforeModel cfg st inv.now inv.messages).1,
          (timerBeforeModel cfg st inv.now inv.messages).2) = false := by
      simp [isWarningAppend, h]
    rw [if_neg (by simp [hev])]
    exact ih _ hpost

/-- Helper: the final message is appended at most once in any run. -/
theorem countFinalAppends_le_one (cfg : TimerCfg) (st : TimerState)
    (invs : List TimerInvocation) : countFinalAppends cfg st invs ≤ 1 := by
  induction invs generalizing st with
  | nil => exact Nat.zero_le 1
  | cons inv rest ih =>
    unfold countFinalAppends timerRun
    rw [List.filter_cons]
    by_cases hev : isFinalAppend
        (st, (timerBeforeModel cfg st inv.now inv.messages).1,
          (timerBeforeModel cfg st inv.now inv.messages).2) = true
    · have hb := hev
      simp only [isFinalAppend, Bool.and_eq_true] at hb
      have hpost : (timerBeforeModel cfg st inv.now inv.messages).1.finalSent = true := hb.1.2
      rw [if_pos hev, List.length_cons]
      have := countFinalAppends_of_finalSent cfg _ rest hpost
      unfold countFinalAppends at this
      omega
    · rw [if_neg hev]
      exact ih _

/-- Helper: the warning message is appended at most once in any run. -/
theorem countWarningAppends_le_one (cfg : TimerCfg) (st : TimerState)
    (invs : List TimerInvocation) : countWarningAppends cfg st invs ≤ 1 := by
  induction invs generalizing st with
  | nil => exact Nat.zero_le 1
  | cons inv rest ih =>
    unfold countWarningAppends timerRun
    rw [List.filter_cons]
    by_cases hev : isWarningAppend
        (st, (timerBeforeModel cfg st inv.now inv.messages).1,
          (timerBeforeModel cfg st inv.now inv.messages).2) = true
    · have hb := hev
      simp only [isWarningAppend, Bool.and_eq_true] at hb
      have hpost : (timerBeforeModel cfg st inv.now inv.messages).1.warningSent = true :=
        hb.1.1.2
      rw [if_pos hev, List.length_cons]
      have := countWarningAppends_of_warningSent cfg _ rest hpost
      unfold countWarningAppends at this
      omega
    · rw [if_neg hev]
      exact ih _

/-- Helper: construction of the counterexample/witness timer instance:
total 100 s, ratio 3/4, offset 60 s, default templates; the warning deadline
is min(75, 40) clamped, i.e. 40. -/
theorem mkResearchTimer_cex :
    mkResearchTimer 100 (3/4) 60 none none = some cexTimerCfg := by
  rw [mkResearchTimer, if_neg (by norm_num)]
  unfold cexTimerCfg
  norm_num

/-- Helper: from a recorded start time with the final flag clear, a run
containing a breach invocation (elapsed ≥ total) whose appends are never
de-duplicated appends the final message exactly once. -/
theorem countFinalAppends_eq_one (cfg : TimerCfg) (t0 : ℚ) :
    ∀ (invs : List TimerInvocation) (w : Bool),
      (∃ inv ∈ invs, inv.now - t0 ≥ cfg.totalSeconds) →
      (∀ inv ∈ invs, (appendTimerMessage inv.messages cfg.finalMessage).isSome = true) →
      countFinalAppends cfg ⟨some t0, w, false⟩ invs = 1 := by
  intro invs
  induction invs with
  | nil =>
    intro w hb hnd
    simp at hb
  | cons inv rest ih =>
    intro w hb hnd
    by_cases hge : inv.now - t0 ≥ cfg.totalSeconds
    · have hstep : timerBeforeModel cfg ⟨some t0, w, false⟩ inv.now inv.messages
          = (⟨some t0, true, true⟩, appendTimerMessage inv.messages cfg.finalMessage) := by
        simp only [timerBeforeModel]
        rw [if_pos ⟨by simp, hge⟩]
      have hhead := hnd inv (List.mem_cons_self inv rest)
      unfold countFinalAppends timerRun
      simp only [hstep]
      rw [List.filter_cons, if_pos (by simp [isFinalAppend, hhead]), List.length_cons]
      have h0 := countFinalAppends_of_finalSent cfg ⟨some t0, true, true⟩ rest rfl
      unfold countFinalAppends at h0
      omega
    · have hkey : ∃ w' out, timerBeforeModel cfg ⟨some t0, w, false⟩ inv.now inv.messages
          = (⟨some t0, w', false⟩, out) := by
        simp only [timerBeforeModel]
        rw [if_neg (by intro hc; exact hge hc.2)]
        split_ifs with h2
        · exact ⟨true, _, rfl⟩
        · exact ⟨w, _, rfl⟩
      obtain ⟨w', out, hkey⟩ := hkey
      have hbrest : ∃ i ∈ rest, i.now - t0 ≥ cfg.totalSeconds := by
        obtain ⟨i, hi, hgei⟩ := hb
        rcases List.mem_cons.mp hi with hhead | hmem
        · exact absurd (hhead ▸ hgei) hge
        · exact ⟨i, hmem, hgei⟩
      have hndrest : ∀ i ∈ rest,
          (appendTimerMessage i.messages cfg.finalMessage).isSome = true :=
        fun i hi => hnd i (List.mem_cons_of_mem _ hi)
      unfold countFinalAppends timerRun
      simp only [hkey]
      rw [List.filter_cons, if_neg (by simp [isFinalAppend])]
      exact ih w' hbrest hndrest

/-- C8 counterexample: the claim "the final message is appended exactly once
if some invocation after the first observes elapsed ≥ total_seconds" fails
as stated.  Concrete input: timer (total 100 s, ratio 3/4, offset 60 s,
default templates); first invocation at t = 0, second at t = 150 with the
conversation already ending in a human message textually identical to the
final message.  The second invocation observes elapsed 150 ≥ 100, but
de-duplication suppresses the append, so the final message is appended zero
times (and, the flags being set, never afterwards). -/
theorem research_timer_final_dedup_counterexample :
    mkResearchTimer 100 (3/4) 60 none none = some cexTimerCfg ∧
    ((150 : ℚ) - 0 ≥ cexTimerCfg.totalSeconds) ∧
    countFinalAppends cexTimerCfg initialTimerState
      [TimerInvocation.mk 0 [],
       TimerInvocation.mk 150 [Msg.human defaultFinalMessage none]] = 0 := by
  refine ⟨mkResearchTimer_cex, by norm_num [cexTimerCfg], ?_⟩
  have h1 : timerBeforeModel cexTimerCfg initialTimerState 0 []
      = (⟨some 0, false, false⟩, none) := rfl
  have h2 : timerBeforeModel cexTimerCfg ⟨some 0, false, false⟩ 150
        [Msg.human defaultFinalMessage none]
      = (⟨some 0, true, true⟩, none) := by
    simp only [timerBeforeModel]
    rw [if_pos ⟨by simp, by show (150 : ℚ) - 0 ≥ 100; norm_num⟩]
    simp [appendTimerMessage, cexTimerCfg]
  have hrun : timerRun cexTimerCfg initialTimerState
      [TimerInvocation.mk 0 [],
       TimerInvocation.mk 150 [Msg.human defaultFinalMessage none]]
      = [(initialTimerState, ⟨some 0, false, false⟩, none),
         (⟨some 0, false, false⟩, ⟨some 0, true, true⟩, none)] := by
    simp only [timerRun, h1, h2]
  unfold countFinalAppends
  rw [hrun]
  simp [isFinalAppend]

/-- C8 (amended): with a nonnegative `warning_offset_seconds` (negative
offsets are clamped to 0 at construction): construction with
`total_seconds ≤ 0` fails; the warning deadline equals
min(total·ratio, total − offset when total > offset, else total) clamped to
≥ 0; the first invocation records the start time and returns no update;
across any sequence of invocations each of the warning and final messages is
appended at most once; and the final message is appended exactly once when
some invocation after the first observes elapsed ≥ total_seconds, provided
no invocation is de-dup-suppressed (its conversation does not already end in
a human message with identical trimmed text). -/
theorem research_timer_amended_spec
    (total frac offset : ℚ) (ru : Option (String → String)) (fm : Option String)
    (cfg : TimerCfg) (hofs : 0 ≤ offset)
    (hmk : mkResearchTimer total frac offset ru fm = some cfg) :
    (∀ (t f o : ℚ) (r : Option (String → String)) (m : Option String),
      t ≤ 0 → mkResearchTimer t f o r m = none) ∧
    cfg.warningDeadline
      = max (min (total * frac) (if offset < total then total - offset else total)) 0 ∧
    (∀ (now : ℚ) (msgs : List Msg),
      timerBeforeModel cfg initialTimerState now msgs
        = ({ startTime := some now, warningSent := false, finalSent := false }, none)) ∧
    (∀ (st : TimerState) (invs : List TimerInvocation),
      countFinalAppends cfg st invs ≤ 1 ∧ countWarningAppends cfg st invs ≤ 1) ∧
    (∀ (first : TimerInvocation) (rest : List TimerInvocation),
      (∃ inv ∈ rest, inv.now - first.now ≥ cfg.totalSeconds) →
      (∀ inv ∈ rest, (appendTimerMessage inv.messages cfg.finalMessage).isSome = true) →
      countFinalAppends cfg initialTimerState (first :: rest) = 1) := by
  have hpos := mkResearchTimer_pos hmk
  obtain ⟨htot, hdl⟩ := mkResearchTimer_fields hmk
  refine ⟨?_, ?_, ?_, ?_, ?_⟩
  · intro t f o r m ht
    simp [mkResearchTimer, ht]
  · rw [hdl, max_eq_left hofs]
    rcases le_or_lt 0 frac with hf | hf
    · rw [max_eq_left hf]
    · have h0 : max frac 0 = 0 := max_eq_right hf.le
      rw [h0, mul_zero]
      have hm : (0 : ℚ) ≤ if offset < total then total - offset else total := by
        split_ifs with hot
        · linarith
        · linarith
      have h2 : total * frac < 0 := mul_neg_of_pos_of_neg hpos hf
      rw [min_eq_left hm, max_self]
      rw [max_eq_right (le_of_lt (lt_of_le_of_lt (min_le_left _ _) h2))]
  · intro now msgs
    rfl
  · intro st invs
    exact ⟨countFinalAppends_le_one cfg st invs, countWarningAppends_le_one cfg st invs⟩
  · intro first rest hb hnd
    unfold countFinalAppends timerRun
    have h1 : timerBeforeModel cfg initialTimerState first.now first.messages
        = (⟨some first.now, false, false⟩, none) := rfl
    simp only [h1]
    rw [List.filter_cons, if_neg (by simp [isFinalAppend])]
    exact countFinalAppends_eq_one cfg first.now rest false hb hnd

/-- Witness for the amended C8 at the concrete timer of the counterexample
construction: deadline 40, the first invocation records the start, and a
breach run with no de-dup suppression appends the final message once. -/
theorem research_timer_amended_spec_witness :
    ((0 : ℚ) ≤ 60) ∧
    (cexTimerCfg.warningDeadline
      = max (min (100 * (3/4 : ℚ)) (if (60 : ℚ) < 100 then 100 - 60 else 100)) 0) ∧
    (timerBeforeModel cexTimerCfg initialTimerState 7 []
      = ({ startTime := some 7, warningSent := false, finalSent := false }, none)) ∧
    countFinalAppends cexTimerCfg initialTimerState
      [TimerInvocation.mk 0 [], TimerInvocation.mk 150 []] = 1 := by
  have h := research_timer_amended_spec 100 (3/4) 60 none none cexTimerCfg
    (by norm_num) mkResearchTimer_cex
  refine ⟨by norm_num, h.2.1, h.2.2.1 7 [], ?_⟩
  refine h.2.2.2.2 (TimerInvocation.mk 0 []) [TimerInvocation.mk 150 []] ?_ ?_
  · exact ⟨TimerInvocation.mk 150 [], by simp,
      by show (150 : ℚ) - 0 ≥ cexTimerCfg.totalSeconds; norm_num [cexTimerCfg]⟩
  · intro i hi
    have hi2 : i = TimerInvocation.mk 150 [] := List.mem_singleton.mp hi
    subst hi2
    rfl

/-- C9 counterexample: with `checkpoint_saver=false`, a processing call with
a valid thread id, a non-empty message, and a non-terminal finish reason is
not a no-op returning false: it stages the chunk into the in-memory store
and returns true. -/
theorem chat_stream_disabled_counterexample :
    (processStreamMessage (ChatStreamManager.mk false false false) []
        "t1" "hello" "chunk" false).2 = true ∧
    (processStreamMessage (ChatStreamManager.mk false false false) []
        "t1" "hello" "chunk" false).1
      = [((("messages", "t1"), "cursor"), StoreVal.cursorVal 0),
         ((("messages", "t1"), "chunk_0"), StoreVal.strVal "hello")] := by
  constructor <;> rfl

/-- C9 (amended): with `checkpoint_saver=false` persistence never happens:
calls with invalid input (empty thread id or message) return false; calls
with a terminal finish reason ("stop"/"interrupt") return false (the
consolidation pass refuses to persist); every other call merely stages the
chunk in memory and returns true; and the legacy `chat_stream_message`
wrapper returns false without any processing whenever the enable flag is
false. -/
theorem chat_stream_disabled_amended (mgr : ChatStreamManager)
    (hsaver : mgr.checkpointSaver = false) :
    (∀ (store : Store) (tid msg fr : String) (db : Bool), tid = "" ∨ msg = "" →
      (processStreamMessage mgr store tid msg fr db).2 = false) ∧
    (∀ (store : Store) (tid msg fr : String) (db : Bool),
      fr = "stop" ∨ fr = "interrupt" →
      (processStreamMessage mgr store tid msg fr db).2 = false) ∧
    (∀ (store : Store) (tid msg fr : String) (db : Bool),
      tid ≠ "" → msg ≠ "" → fr ≠ "stop" → fr ≠ "interrupt" →
      (processStreamMessage mgr store tid msg fr db).2 = true) ∧
    (∀ (mgr' : ChatStreamManager) (store : Store) (tid msg fr : String) (db : Bool),
      chatStreamMessage false mgr' store tid msg fr db = (store, false)) := by
  refine ⟨?_, ?_, ?_, ?_⟩
  · intro store tid msg fr db h
    rcases h with h | h
    · simp [processStreamMessage, h]
    · by_cases ht : tid = "" <;> simp [processStreamMessage, ht, h]
  · intro store tid msg fr db hfr
    by_cases ht : tid = ""
    · simp [processStreamMessage, ht]
    · by_cases hm : msg = ""
      · simp [processStreamMessage, ht, hm]
      · have hterm : fr = "stop" ∨ fr = "interrupt" := hfr
        simp only [processStreamMessage, if_neg ht, if_neg hm, if_pos hterm]
        unfold persistCompleteConversation
        split_ifs <;> simp_all
  · intro store tid msg fr db ht hm h1 h2
    have hterm : ¬ (fr = "stop" ∨ fr = "interrupt") := by
      rintro (h | h)
      · exact h1 h
      · exact h2 h
    simp [processStreamMessage, ht, hm, hterm]
  · intro mgr' store tid msg fr db
    simp [chatStreamMessage]

/-- Witness for the amended C9 at concrete inputs. -/
theorem chat_stream_disabled_amended_witness :
    (processStreamMessage (ChatStreamManager.mk false false false) []
        "" "hello" "chunk" false).2 = false ∧
    (processStreamMessage (ChatStreamManager.mk false false false) []
        "t1" "hello" "stop" false).2 = false ∧
    (processStreamMessage (ChatStreamManager.mk false false false) []
        "t1" "hello" "chunk" false).2 = true ∧
    chatStreamMessage false (ChatStreamManager.mk false false false) []
        "t1" "hello" "stop" false = ([], false) := by
  have h := chat_stream_disabled_amended (ChatStreamManager.mk false false false) rfl
  exact ⟨h.1 [] "" "hello" "chunk" false (Or.inl rfl),
    h.2.1 [] "t1" "hello" "stop" false (Or.inl rfl),
    h.2.2.1 [] "t1" "hello" "chunk" false (by decide) (by decide) (by decide) (by decide),
    h.2.2.2 (ChatStreamManager.mk false false false) [] "t1" "hello" "stop" false⟩

/-- Helper: the checker distributes over append through `Option.bind`. -/
theorem runChecker_append (p : List String) (xs ys : List Msg) :
    runChecker p (xs ++ ys) = (runChecker p xs).bind (fun q => runChecker q ys) := by
  induction xs generalizing p with
  | nil => simp [runChecker]
  | cons m rest ih =>
    simp only [List.cons_append, runChecker]
    by_cases hp : p.isEmpty
    · simp only [if_pos hp]
      cases m with
      | ai c ids =>
        by_cases hid : ids.isEmpty
        · simp [hid, ih]
        · simp [hid, ih]
      | tool c cid => simp
      | human c n => simp [ih]
      | system c => simp [ih]
    · simp only [if_neg hp]
      cases m with
      | tool c cid =>
        by_cases hc : cid ∈ p
        · simp [hc, ih]
        · simp [hc]
      | ai c ids => simp
      | human c n => simp
      | system c => simp

/-- Helper: the other-message branch closes any open cluster and restores
the clean invariant, for any message the checker passes in the empty state. -/
theorem dropOtherBranch_inv (st : DropState) (m : Msg) (h : DropInv st)
    (hm : runChecker [] [m] = some []) : DropInv (dropOtherBranch st m) := by
  left
  refine ⟨rfl, rfl, ?_⟩
  rcases h with ⟨hp, hs, hc⟩ | ⟨k, hs, hp, hk, ht, hd⟩
  · simp only [dropOtherBranch, hs]
    rw [runChecker_append, hc]
    simpa using hm
  · simp only [dropOtherBranch, hs, if_pos hp]
    rw [runChecker_append, ht]
    simpa using hm

/-- Helper: opening a fresh cluster after a well-paired prefix satisfies the
loop invariant. -/
theorem ai_open_inv (done : List Msg) (c : String) (ids : List String)
    (hids : ids ≠ []) (hdone : runChecker [] done = some []) :
    DropInv { cleaned := done ++ [Msg.ai c ids], pending := ids.dedup,
              start := some done.length } := by
  have hdne : ids.dedup ≠ [] := by simpa [List.dedup_eq_nil] using hids
  right
  refine ⟨done.length, rfl, hdne, by simp, ?_, ?_⟩
  · rw [List.take_append_of_le_length (le_refl _), List.take_length]
    exact hdone
  · rw [List.drop_append_of_le_length (le_refl _), List.drop_length, List.nil_append]
    simp [runChecker, hids, List.isEmpty_iff]

/-- Helper: one loop iteration preserves the invariant. -/
theorem dropOrphanStep_inv (st : DropState) (m : Msg) (h : DropInv st) :
    DropInv (dropOrphanStep st m) := by
  cases m with
  | human c n => exact dropOtherBranch_inv st _ h (by simp [runChecker])
  | system c => exact dropOtherBranch_inv st _ h (by simp [runChecker])
  | ai c ids =>
    by_cases hids : ids = []
    · subst hids
      have : dropOrphanStep st (Msg.ai c []) = dropOtherBranch st (Msg.ai c []) := by
        simp [dropOrphanStep]
      rw [this]
      exact dropOtherBranch_inv st _ h (by simp [runChecker])
    · have hdne : ids.dedup ≠ [] := by simpa [List.dedup_eq_nil] using hids
      rcases h with ⟨hp, hs, hc⟩ | ⟨k, hs, hp, hk, ht, hd⟩
      · have hres : dropOrphanStep st (Msg.ai c ids)
            = { cleaned := st.cleaned ++ [Msg.ai c ids], pending := ids.dedup,
                start := some st.cleaned.length } := by
          simp only [dropOrphanStep, if_pos hids, hs, extractToolCallIds]
          simp [List.isEmpty_iff, hdne]
        rw [hres]
        exact ai_open_inv st.cleaned c ids hids hc
      · have hres : dropOrphanStep st (Msg.ai c ids)
            = { cleaned := st.cleaned.take k ++ [Msg.ai c ids], pending := ids.dedup,
                start := some (st.cleaned.take k).length } := by
          simp only [dropOrphanStep, if_pos hids, hs, if_pos hp, extractToolCallIds]
          simp [List.isEmpty_iff, hdne]
        rw [hres]
        exact ai_open_inv (st.cleaned.take k) c ids hids ht
  | tool c cid =>
    rcases h with ⟨hp, hs, hc⟩ | ⟨k, hs, hp, hk, ht, hd⟩
    · have hres : dropOrphanStep st (Msg.tool c cid) = st := by
        simp [dropOrphanStep, hp]
      rw [hres]
      exact Or.inl ⟨hp, hs, hc⟩
    · by_cases hmem : cid ∈ st.pending
      · have hres : dropOrphanStep st (Msg.tool c cid)
            = { cleaned := st.cleaned ++ [Msg.tool c cid],
                pending := st.pending.erase cid,
                start := if (st.pending.erase cid).isEmpty then none else st.start } := by
          simp [dropOrphanStep, hp, hmem]
        rw [hres]
        have hsplit : runChecker [] (st.cleaned ++ [Msg.tool c cid])
            = ((runChecker [] st.cleaned).bind (fun q => runChecker q [Msg.tool c cid])) :=
          runChecker_append [] st.cleaned [Msg.tool c cid]
        have hdecomp : runChecker [] st.cleaned = some st.pending := by
          conv_lhs => rw [← List.take_append_drop k st.cleaned]
          rw [runChecker_append, ht]
          simpa using hd
        by_cases hemp : (st.pending.erase cid).isEmpty
        · left
          refine ⟨List.isEmpty_iff.mp hemp, by simp [hemp], ?_⟩
          rw [hsplit, hdecomp]
          simp only [Option.some_bind]
          have : runChecker st.pending [Msg.tool c cid]
              = some (st.pending.erase cid) := by
            simp [runChecker, hmem, List.isEmpty_iff, hp]
          rw [this, List.isEmpty_iff.mp hemp]
        · right
          refine ⟨k, by simp [hemp, hs], by simpa [List.isEmpty_iff] using hemp,
            by simp; omega, ?_, ?_⟩
          · rw [List.take_append_of_le_length hk]
            exact ht
          · rw [List.drop_append_of_le_length hk, runChecker_append, hd]
            simp [runChecker, hmem, List.isEmpty_iff, hp]
      · have hres : dropOrphanStep st (Msg.tool c cid) = st := by
          simp [dropOrphanStep, hmem]
        rw [hres]
        exact Or.inr ⟨k, hs, hp, hk, ht, hd⟩

/-- Helper: the invariant holds after folding the whole message list. -/
theorem foldl_dropOrphanStep_inv (msgs : List Msg) (st : DropState)
    (h : DropInv st) : DropInv (msgs.foldl dropOrphanStep st) := by
  induction msgs generalizing st with
  | nil => exact h
  | cons m rest ih => exact ih _ (dropOrphanStep_inv st m h)

/-- C2: every message list produced by
`AdaptiveSummarizationMiddleware._drop_orphan_tool_pairs` satisfies the
pairing invariant: every AI message carrying tool calls is immediately
followed by exactly the tool-result messages matching its (deduplicated)
tool-call ids, and no tool-result message survives whose originating
tool-call message is absent. -/
theorem drop_orphan_tool_pairs_well_paired (msgs : List Msg) :
    wellPaired (dropOrphanToolPairs msgs) := by
  have hinv := foldl_dropOrphanStep_inv msgs ⟨[], [], none⟩ (Or.inl ⟨rfl, rfl, rfl⟩)
  unfold wellPaired dropOrphanToolPairs
  rcases hinv with ⟨hp, hs, hc⟩ | ⟨k, hs, hp, hk, ht, hd⟩
  · simp only [hs]
    exact hc
  · simp only [hs, if_pos hp]
    exact ht

/-- Helper: the other-message branch only truncates and appends, so its
output is a sublist of the processed input plus the new message. -/
theorem dropOtherBranch_cleaned_sublist (st : DropState) (m : Msg)
    (pre : List Msg) (h : List.Sublist st.cleaned pre) :
    List.Sublist (dropOtherBranch st m).cleaned (pre ++ [m]) := by
  have hsub : List.Sublist (match st.start with
      | some k => if st.pending ≠ [] then st.cleaned.take k else st.cleaned
      | none => st.cleaned) st.cleaned := by
    rcases st.start with _ | k
    · exact List.Sublist.refl _
    · split_ifs
      · exact List.take_sublist k st.cleaned
      · exact List.Sublist.refl _
  exact List.Sublist.append (hsub.trans h) (List.Sublist.refl [m])

/-- Helper: one loop iteration of `_drop_orphan_tool_pairs` keeps `cleaned`
a sublist of the processed messages. -/
theorem dropOrphanStep_cleaned_sublist (st : DropState) (m : Msg)
    (pre : List Msg) (h : List.Sublist st.cleaned pre) :
    List.Sublist (dropOrphanStep st m).cleaned (pre ++ [m]) := by
  cases m with
  | human c n => exact dropOtherBranch_cleaned_sublist st _ pre h
  | system c => exact dropOtherBranch_cleaned_sublist st _ pre h
  | ai c ids =>
    by_cases hids : ids = []
    · have : dropOrphanStep st (Msg.ai c ids) = dropOtherBranch st (Msg.ai c ids) := by
        simp [dropOrphanStep, hids]
      rw [this]
      exact dropOtherBranch_cleaned_sublist st _ pre h
    · have hsub : List.Sublist (match st.start with
          | some k => if st.pending ≠ [] then st.cleaned.take k else st.cleaned
          | none => st.cleaned) st.cleaned := by
        rcases st.start with _ | k
        · exact List.Sublist.refl _
        · split_ifs
          · exact List.take_sublist k st.cleaned
          · exact List.Sublist.refl _
      have happ : List.Sublist ((match st.start with
            | some k => if st.pending ≠ [] then st.cleaned.take k else st.cleaned
            | none => st.cleaned) ++ [Msg.ai c ids]) (pre ++ [Msg.ai c ids]) :=
        List.Sublist.append (hsub.trans h) (List.Sublist.refl _)
      have hcl : (dropOrphanStep st (Msg.ai c ids)).cleaned
          = (match st.start with
            | some k => if st.pending ≠ [] then st.cleaned.take k else st.cleaned
            | none => st.cleaned) ++ [Msg.ai c ids] := by
        simp only [dropOrphanStep, if_pos hids]
        split_ifs <;> rfl
      rw [hcl]
      exact happ
  | tool c cid =>
    by_cases hcond : st.pending ≠ [] ∧ cid ∈ st.pending
    · have : (dropOrphanStep st (Msg.tool c cid)).cleaned
          = st.cleaned ++ [Msg.tool c cid] := by
        simp [dropOrphanStep, hcond]
      rw [this]
      exact List.Sublist.append h (List.Sublist.refl _)
    · have : dropOrphanStep st (Msg.tool c cid) = st := by
        simp only [dropOrphanStep, if_neg hcond]
      rw [this]
      exact h.trans (List.sublist_append_left pre [Msg.tool c cid])

/-- Helper: folding the loop keeps `cleaned` a sublist of the input. -/
theorem foldl_dropOrphanStep_cleaned_sublist (msgs : List Msg) :
    ∀ (st : DropState) (pre : List Msg), List.Sublist st.cleaned pre →
      List.Sublist (List.foldl dropOrphanStep st msgs).cleaned (pre ++ msgs) := by
  induction msgs with
  | nil =>
    intro st pre h
    simpa using h
  | cons m rest ih =>
    intro st pre h
    have := ih (dropOrphanStep st m) (pre ++ [m])
      (dropOrphanStep_cleaned_sublist st m pre h)
    simpa using this

/-- Helper: `_drop_orphan_tool_pairs` returns a sublist of its input. -/
theorem dropOrphanToolPairs_sublist (msgs : List Msg) :
    List.Sublist (dropOrphanToolPairs msgs) msgs := by
  unfold dropOrphanToolPairs
  have h := foldl_dropOrphanStep_cleaned_sublist msgs ⟨[], [], none⟩ []
    (List.Sublist.refl [])
  rw [List.nil_append] at h
  rcases hs : (List.foldl dropOrphanStep ⟨[], [], none⟩ msgs).start with _ | k
  · simpa [hs] using h
  · simp only [hs]
    split_ifs
    · exact (List.take_sublist k _).trans h
    · exact h

/-- Helper: a sublist has a smaller approximate token count (the counter is
a sum of nonnegative per-message counts). -/
theorem tokenCounter_sublist_le (cfg : SummCfg) {l1 l2 : List Msg}
    (h : List.Sublist l1 l2) : tokenCounter cfg l1 ≤ tokenCounter cfg l2 := by
  unfold tokenCounter
  induction h with
  | slnil => exact Nat.le_refl 0
  | cons a h ih =>
    simp only [List.map_cons, List.sum_cons]
    omega
  | cons₂ a h ih =>
    simp only [List.map_cons, List.sum_cons]
    omega

/-- Helper: `_rebalance_until_within_budget` either fits the budget or has
collapsed to the single-summary fallback (optionally followed by the
truncated latest human message only when the result then fits). -/
theorem collapseFallback_spec (cfg : SummCfg) (b : ℕ) (msgs2 : List Msg)
    (lhi : Option ℕ) :
    tokenCounter cfg (collapseFallback cfg b msgs2 lhi) ≤ b ∨
    ∃ t, collapseFallback cfg b msgs2 lhi = buildNewMessages t := by
  rcases lhi with _ | i
  · simp only [collapseFallback]
    split_ifs with h
    · exact absurd rfl h.2
    · rcases not_and_or.mp h with h1 | h1
      · exact Or.inl (not_lt.mp h1)
      · exact Or.inr ⟨_, List.append_nil _⟩
  · simp only [collapseFallback]
    split_ifs with h
    · exact Or.inr ⟨_, rfl⟩
    · rcases not_and_or.mp h with h1 | h1
      · exact Or.inl (not_lt.mp h1)
      · rw [not_ne_iff] at h1
        exact absurd h1 (by simp)

/-- Helper: `_rebalance_until_within_budget` either fits the budget or has
collapsed to the single-summary fallback (optionally followed by the
truncated latest human message only when the result then fits). -/
theorem rebalance_within_or_collapsed (cfg : SummCfg) (b : ℕ)
    (hB : cfg.maxTokensBeforeSummary = some b) (msgs : List Msg)
    (flags : List Bool) (lhi : Option ℕ) :
    tokenCounter cfg (rebalanceUntilWithinBudget cfg msgs flags lhi) ≤ b ∨
    ∃ t, rebalanceUntilWithinBudget cfg msgs flags lhi = buildNewMessages t := by
  rcases lhi with _ | i <;>
  · simp only [rebalanceUntilWithinBudget, hB]
    split_ifs
    all_goals first
      | exact Or.inl (by assumption)
      | (rename_i h
         exact Or.inl h.2)
      | exact collapseFallback_spec cfg b _ _

/-- Helper: post-processing the rebalanced list with
`_drop_orphan_tool_pairs` keeps it within budget (it only removes
messages), and leaves the single-summary fallback untouched. -/
theorem dropOrphan_of_rebalance (cfg : SummCfg) (b : ℕ)
    (hB : cfg.maxTokensBeforeSummary = some b) (n : List Msg)
    (f : List Bool) (l : Option ℕ) :
    tokenCounter cfg (dropOrphanToolPairs (rebalanceUntilWithinBudget cfg n f l)) ≤ b ∨
    ∃ t, dropOrphanToolPairs (rebalanceUntilWithinBudget cfg n f l)
      = buildNewMessages t := by
  rcases rebalance_within_or_collapsed cfg b hB n f l with h | ⟨t, ht⟩
  · exact Or.inl ((tokenCounter_sublist_le cfg (dropOrphanToolPairs_sublist _)).trans h)
  · refine Or.inr ⟨t, ?_⟩
    rw [ht]
    exact rfl

/-- C1: for every message list and positive budget, the budget-enforcement
pass `_enforce_budget` yields a message list whose approximate token count
is at most `max_tokens_before_summary`, or else the result is the minimal
fallback: the single synthetic summary message (the variant of the fallback
that keeps the truncated latest human message is only returned when it
fits the budget, and so lands in the first disjunct). -/
theorem enforce_budget_within_or_collapsed (cfg : SummCfg) (b : ℕ)
    (hB : cfg.maxTokensBeforeSummary = some b) (hpos : 0 < b) (msgs : List Msg) :
    tokenCounter cfg (enforceBudget cfg msgs).1 ≤ b ∨
    ∃ t, (enforceBudget cfg msgs).1 = buildNewMessages t := by
  simp only [enforceBudget, hB]
  split_ifs with h1 h2
  · exact Or.inl h1
  · exact Or.inl (by simp [tokenCounter, List.isEmpty_iff.mp h2])
  · exact dropOrphan_of_rebalance cfg b hB _ _ _

/-- Witness for C1 at a budget of 5 tokens over a single over-budget human
message. -/
theorem enforce_budget_within_or_collapsed_witness :
    c1WitnessCfg.maxTokensBeforeSummary = some 5 ∧ (0 : ℕ) < 5 ∧
    (tokenCounter c1WitnessCfg
        (enforceBudget c1WitnessCfg [Msg.human "hello world" none]).1 ≤ 5 ∨
      ∃ t, (enforceBudget c1WitnessCfg [Msg.human "hello world" none]).1
        = buildNewMessages t) :=
  ⟨rfl, by decide,
    enforce_budget_within_or_collapsed c1WitnessCfg 5 rfl (by decide)
      [Msg.human "hello world" none]⟩

end DeepResearchAgent
